import Mathlib

/-!
# ProjectDevelopmentStream reconciler

A shallow embedding of `ProjectDevelopmentStreamReconciler.Reconcile`
(`internal/controller/projectdevelopmentstream_controller.go`).

The reconciler talks to a resource store through `Get`, `Create` and `Update`
and writes diagnostics to a logger.  Both are made explicit here: the store is a
`Client` over a state type, every store call and every log line is appended to
a chronological list of `Event`s, and the local variables of the loop
(`pds`, `ctrlResult`) are threaded through a `LoopState`.
-/

namespace ProjectController

/-! ## Semi-structured content (`map[string]interface{}`) -/

mutual
/-- A JSON value as held in the content of an unstructured object. -/
inductive Value where
  | null
  | bool (b : Bool)
  | num (n : Int)
  | str (s : String)
  | list (xs : ValueList)
  | map (kvs : Fields)
  deriving DecidableEq
/-- A sequence of values (a Go slice of interfaces). -/
inductive ValueList where
  | nil
  | cons (v : Value) (rest : ValueList)
  deriving DecidableEq
/-- The entries of a mapping from field names to values.  A Go map holds each
key once; `Fields.WF` states that representation invariant. -/
inductive Fields where
  | nil
  | cons (k : String) (v : Value) (rest : Fields)
  deriving DecidableEq
end

namespace Fields

/-- The value stored under key `k` (Go: `m[k]`). -/
def lookup (k : String) : Fields → Option Value
  | .nil => none
  | .cons l v rest => if l = k then some v else lookup k rest

/-- Whether key `k` is present. -/
def contains (k : String) : Fields → Bool
  | .nil => false
  | .cons l _ rest => if l = k then true else contains k rest

/-- The assignment `m[k] = v`: overwrite the entry when present, add it otherwise. -/
def set (k : String) (v : Value) : Fields → Fields
  | .nil => .cons k v .nil
  | .cons l w rest => if l = k then .cons l v rest else .cons l w (set k v rest)

/-- Number of entries (Go: `len(m)`). -/
def length : Fields → Nat
  | .nil => 0
  | .cons _ _ rest => length rest + 1

end Fields

mutual
/-- Well-formed values: no mapping, at any depth, repeats a key. -/
def Value.WF : Value → Bool
  | .list xs => xs.WF
  | .map kvs => kvs.WF
  | _ => true
/-- Well-formed sequences. -/
def ValueList.WF : ValueList → Bool
  | .nil => true
  | .cons v rest => v.WF && rest.WF
/-- Well-formed mappings: keys are pairwise distinct and all values well formed. -/
def Fields.WF : Fields → Bool
  | .nil => true
  | .cons k v rest => !(rest.contains k) && (v.WF && rest.WF)
end

mutual
/-- The comparison `equality.Semantic.DeepEqual` restricted to JSON content:
scalars by value, sequences element by element in order, mappings by size and
key-wise comparison whatever the order of the entries. -/
def Value.DeepEqual : Value → Value → Bool
  | .null, .null => true
  | .bool a, .bool b => a == b
  | .num a, .num b => a == b
  | .str a, .str b => a == b
  | .list xs, .list ys => xs.DeepEqual ys
  | .map f, .map g => f.length == g.length && f.subEqual g
  | _, _ => false
/-- Element-wise comparison of two sequences. -/
def ValueList.DeepEqual : ValueList → ValueList → Bool
  | .nil, .nil => true
  | .cons a as, .cons b bs => a.DeepEqual b && as.DeepEqual bs
  | _, _ => false
/-- Every entry of the first mapping has a deep-equal entry under the same key
in the second mapping. -/
def Fields.subEqual : Fields → Fields → Bool
  | .nil, _ => true
  | .cons k v rest, g =>
    (match g.lookup k with
      | some w => v.DeepEqual w
      | none => false) && rest.subEqual g
end

/-- The call `equality.Semantic.DeepEqual(a, b)` on two object contents. -/
def DeepEqual (a b : Fields) : Bool :=
  a.length == b.length && a.subEqual b

/-! ## Errors -/

/-- The reason carried by a store error (`metav1.StatusReason`). -/
inductive StatusReason where
  | NotFound
  | Conflict
  | AlreadyExists
  | Unknown
  deriving DecidableEq

/-- A Go `error` value; `nil` is `none : Option Err`. -/
structure Err where
  reason : StatusReason
  message : String
  deriving DecidableEq

/-- The predicate `apierrors.IsNotFound`. -/
def IsNotFound (err : Err) : Bool := err.reason == StatusReason.NotFound

/-- The predicate `apierrors.IsConflict`. -/
def IsConflict (err : Err) : Bool := err.reason == StatusReason.Conflict

/-- The function `client.IgnoreNotFound`: `nil` for a not-found error, the error itself otherwise. -/
def IgnoreNotFound (err : Err) : Option Err :=
  if IsNotFound err then none else some err

/-! ## Objects -/

/-- The pair `types.NamespacedName` / `client.ObjectKey`. -/
structure NamespacedName where
  Namespace : String
  Name : String
  deriving DecidableEq

/-- Modelled from the spec: the document type of the resource templates and of the stored
resources (`unstructured.Unstructured`) is declared outside the controller source.  A
document has the identity fields the reconciler reads through accessors (apiVersion, kind,
name, an optional namespace with the empty string for unset), the version token of the
revision it was read at, and arbitrary further content in `Object`, among it the `spec`
sub-tree, `status` and the remaining metadata such as labels.  In Go all of these live in
the one map `Object`; the reconciler only ever assigns `Object["spec"]` and the namespace,
so keeping the identity fields apart loses nothing. -/
structure Unstructured where
  apiVersion : String
  kind : String
  name : String
  Namespace : String
  resourceVersion : String
  Object : Fields
  deriving DecidableEq

namespace Unstructured

/-- The method `DeepCopy`: an independent copy with the same content. -/
def DeepCopy (u : Unstructured) : Unstructured := u

/-- The accessor `GetAPIVersion`. -/
def GetAPIVersion (u : Unstructured) : String := u.apiVersion

/-- The accessor `GetKind`. -/
def GetKind (u : Unstructured) : String := u.kind

/-- The accessor `GetName`. -/
def GetName (u : Unstructured) : String := u.name

/-- The accessor `GetNamespace`. -/
def GetNamespace (u : Unstructured) : String := u.Namespace

/-- The setter `SetNamespace`. -/
def SetNamespace (u : Unstructured) (ns : String) : Unstructured :=
  { u with Namespace := ns }

end Unstructured

/-- The function `client.ObjectKeyFromObject`. -/
def ObjectKeyFromObject (u : Unstructured) : NamespacedName :=
  { Namespace := u.GetNamespace, Name := u.GetName }

/-- The function `unstructured.NestedMap(obj, field)` for a single field: a copy of the
mapping stored under `field` and `true`; `false` when the field is absent; `false`
and an error when the field holds something that is not a mapping. -/
def NestedMap (obj : Fields) (field : String) : Fields × Bool × Option Err :=
  match obj.lookup field with
  | none => (Fields.nil, false, none)
  | some (Value.map m) => (m, true, none)
  | some _ => (Fields.nil, false, some ⟨StatusReason.Unknown, "accessor error"⟩)

/-- The function `unstructured.SetNestedMap(obj, value, field)` for a single field: the
assignment `obj[field] = value`, which cannot fail. -/
def SetNestedMap (obj : Fields) (value : Fields) (field : String) : Fields × Option Err :=
  (obj.set field (Value.map value), none)

/-- Modelled from the spec: the desired-state object `ProjectDevelopmentStream` is declared in
`api/v1beta1`, outside the controller source.  It has an identity (namespace, name) and the
ordered list of resource templates `Spec.Resources`. -/
structure ProjectDevelopmentStream where
  Namespace : String
  Name : String
  Resources : List Unstructured
  deriving DecidableEq

/-- The accessor `GetNamespace` of the desired-state object. -/
def ProjectDevelopmentStream.GetNamespace (pds : ProjectDevelopmentStream) : String :=
  pds.Namespace

/-- The value `ctrl.Result`. -/
structure Result where
  Requeue : Bool
  RequeueAfter : Nat
  deriving DecidableEq

/-! ## The store client and the trace -/

/-- The store primitives the reconciler calls (`client.Client`), over a store state `σ`.
Each call returns its result and the state it leaves. -/
structure Client (σ : Type) where
  GetPDS : NamespacedName → σ → Except Err ProjectDevelopmentStream × σ
  Get : String → String → NamespacedName → σ → Except Err Unstructured × σ
  Create : Unstructured → σ → Option Err × σ
  Update : Unstructured → σ → Option Err × σ

/-- A logger is the list of key/value pairs attached with `WithValues`. -/
abbrev Logger := List (String × String)

/-- The method `WithValues`. -/
def Logger.WithValues (log : Logger) (kvs : List (String × String)) : Logger := log ++ kvs

/-- One observable step of a pass: a log line or a store call with its result. -/
inductive Event where
  | Info (log : Logger) (msg : String) (kvs : List (String × String))
  | Error (log : Logger) (err : Err) (msg : String)
  | GetPDS (req : NamespacedName) (res : Except Err ProjectDevelopmentStream)
  | Get (apiVersion kind : String) (key : NamespacedName) (res : Except Err Unstructured)
  | Create (obj : Unstructured) (res : Option Err)
  | Update (obj : Unstructured) (res : Option Err)

/-- The branch an item left the loop body through, named as in the specification. -/
inductive Outcome where
  | Created
  | Updated
  | Unchanged
  | CreateFailed
  | ReadFailed
  | UpdateFailed
  | Conflict
  deriving DecidableEq

/-- The variables live across the iterations of the loop in `Reconcile`. -/
structure LoopState (σ : Type) where
  pds : ProjectDevelopmentStream
  ctrlResult : Result
  cluster : σ
  events : List Event
  outcomes : List Outcome

namespace LoopState

variable {σ : Type}

/-- Append a log line to the trace. -/
def emit (st : LoopState σ) (e : Event) : LoopState σ :=
  { st with events := st.events ++ [e] }

/-- Record a store call and the state it left. -/
def call (st : LoopState σ) (e : Event) (s : σ) : LoopState σ :=
  { st with events := st.events ++ [e], cluster := s }

/-- Leave the loop body (`continue` or its end) through the branch `o`. -/
def finish (st : LoopState σ) (o : Outcome) : LoopState σ :=
  { st with outcomes := st.outcomes ++ [o] }

end LoopState

/-! ## The reconciler -/

section Reconciler

variable {σ : Type}

/-- The update path of the loop body: `existing` was fetched, `resource` is the
concrete item.  Builds `update`, compares it with `existing` and writes it. -/
def updateResource (c : Client σ) (log : Logger) (resource existing : Unstructured)
    (st : LoopState σ) : LoopState σ :=
  let update := existing.DeepCopy
  let (update, st) :=
    match NestedMap resource.Object "spec" with
    | (m, true, _) =>
      match SetNestedMap update.Object m "spec" with
      | (obj, some err) =>
        ({ update with Object := obj },
          st.emit (Event.Error log err "Failed to update 'spec' for generated resource"))
      | (obj, none) => ({ update with Object := obj }, st)
    | (_, false, _) => (update, st)
  if DeepEqual existing.Object update.Object then
    (st.emit (Event.Info log "Resource already up to date" [])).finish Outcome.Unchanged
  else
    match c.Update update st.cluster with
    | (some err, s) =>
      let st := st.call (Event.Update update (some err)) s
      let st := st.emit (Event.Error log err "Failed to update resource")
      let st := if IsConflict err then { st with ctrlResult := { Requeue := true, RequeueAfter := 0 } } else st
      let st := st.emit (Event.Info log "Resource updated" [])
      st.finish (if IsConflict err then Outcome.Conflict else Outcome.UpdateFailed)
    | (none, s) =>
      let st := st.call (Event.Update update none) s
      let st := st.emit (Event.Info log "Resource updated" [])
      st.finish Outcome.Updated

/-- The body of the loop over `pds.Spec.Resources` in `Reconcile`. -/
def reconcileResource (c : Client σ) (log : Logger) (st : LoopState σ)
    (resourceTemplate : Unstructured) : LoopState σ :=
  let resource := resourceTemplate.DeepCopy
  let log := log.WithValues
    [("apiVersion", resource.GetAPIVersion), ("kind", resource.GetKind), ("name", resource.GetName)]
  let st := st.emit (Event.Info log "Creating/Updating resource" [])
  let st :=
    if resource.GetNamespace ≠ "" ∧ resource.GetNamespace ≠ st.pds.GetNamespace then
      st.emit (Event.Info log "Resource namespace set to ProjectDevelopmentStream namespace"
        [("PDS namespace", st.pds.GetNamespace),
          ("resource original namespace", resource.GetNamespace)])
    else st
  let resource := resource.SetNamespace st.pds.GetNamespace
  match c.Get resource.GetAPIVersion resource.GetKind (ObjectKeyFromObject resource) st.cluster with
  | (Except.error err, s) =>
    let st := st.call
      (Event.Get resource.GetAPIVersion resource.GetKind (ObjectKeyFromObject resource) (Except.error err)) s
    if IsNotFound err then
      let st := st.emit (Event.Info log "Creating new resource" [])
      match c.Create resource st.cluster with
      | (some err, s) =>
        let st := st.call (Event.Create resource (some err)) s
        (st.emit (Event.Error log err "Failed to create resource")).finish Outcome.CreateFailed
      | (none, s) =>
        (st.call (Event.Create resource none) s).finish Outcome.Created
    else
      (st.emit (Event.Error log err "Failed to read existing resource")).finish Outcome.ReadFailed
  | (Except.ok existing, s) =>
    let st := st.call
      (Event.Get resource.GetAPIVersion resource.GetKind (ObjectKeyFromObject resource) (Except.ok existing)) s
    updateResource c log resource existing st

/-- The loop `for _, resourceTemplate := range pds.Spec.Resources`. -/
def applyResources (c : Client σ) (log : Logger) (st : LoopState σ)
    (resources : List Unstructured) : LoopState σ :=
  resources.foldl (reconcileResource c log) st

/-- What a call of `Reconcile` returns and leaves behind. -/
structure Pass (σ : Type) where
  result : Result
  err : Option Err
  cluster : σ
  events : List Event
  outcomes : List Outcome
  pds : Option ProjectDevelopmentStream

/-- The method `ProjectDevelopmentStreamReconciler.Reconcile`. -/
def Reconcile (c : Client σ) (req : NamespacedName) (s : σ) : Pass σ :=
  match c.GetPDS req s with
  | (Except.error err, s) =>
    { result := { Requeue := false, RequeueAfter := 0 }
      err := IgnoreNotFound err
      cluster := s
      events := [Event.GetPDS req (Except.error err),
        Event.Error [] err "Unable to fetch ProjectDevelopmentStream"]
      outcomes := []
      pds := none }
  | (Except.ok pds, s) =>
    let log : Logger := Logger.WithValues [] [("PDS name", pds.Name)]
    let st : LoopState σ :=
      { pds := pds
        ctrlResult := { Requeue := false, RequeueAfter := 0 }
        cluster := s
        events := [Event.GetPDS req (Except.ok pds),
          Event.Info log "Applying resources from ProjectDevelopmentStream" []]
        outcomes := [] }
    let st := applyResources c log st st.pds.Resources
    { result := st.ctrlResult
      err := none
      cluster := st.cluster
      events := st.events
      outcomes := st.outcomes
      pds := some st.pds }

end Reconciler

/-! ## A reference store

The store of section 6 of the specification as a keyed collection of documents:
`Get` returns the document stored under (apiVersion, kind, namespace, name),
`Create` adds a document under a free key, `Update` replaces the document under
its key when the submitted version token is the stored one.  Accepted documents
are stored as submitted. -/

/-- The state of the reference store. -/
structure Cluster where
  streams : List ProjectDevelopmentStream
  objects : List Unstructured
  deriving DecidableEq

/-- Whether `u` is stored under the given key. -/
def Unstructured.hasKey (apiVersion kind : String) (key : NamespacedName) (u : Unstructured) : Bool :=
  u.apiVersion == apiVersion && u.kind == kind && u.Namespace == key.Namespace && u.name == key.Name

/-- Whether `u` is stored under the key of `obj`. -/
def Unstructured.sameKey (obj u : Unstructured) : Bool :=
  u.hasKey obj.apiVersion obj.kind (ObjectKeyFromObject obj)

/-- Replace the first element satisfying `p` by `new`. -/
def replaceFirst {α : Type} (p : α → Bool) (new : α) : List α → List α
  | [] => []
  | x :: xs => if p x then new :: xs else x :: replaceFirst p new xs

/-- The error of a missing document. -/
def errNotFound : Err := ⟨StatusReason.NotFound, "not found"⟩

/-- The error of a stale version token. -/
def errConflict : Err := ⟨StatusReason.Conflict, "the object has been modified"⟩

/-- The error of creating a document under a taken key. -/
def errAlreadyExists : Err := ⟨StatusReason.AlreadyExists, "already exists"⟩

/-- The reference store: reads never change the state, rejected writes leave it as it was. -/
def storeClient : Client Cluster where
  GetPDS req s :=
    match s.streams.find? (fun p => p.Namespace == req.Namespace && p.Name == req.Name) with
    | some pds => (Except.ok pds, s)
    | none => (Except.error errNotFound, s)
  Get apiVersion kind key s :=
    match s.objects.find? (Unstructured.hasKey apiVersion kind key) with
    | some u => (Except.ok u, s)
    | none => (Except.error errNotFound, s)
  Create obj s :=
    match s.objects.find? obj.sameKey with
    | some _ => (some errAlreadyExists, s)
    | none => (none, { s with objects := s.objects ++ [obj] })
  Update obj s :=
    match s.objects.find? obj.sameKey with
    | none => (some errNotFound, s)
    | some cur =>
      if cur.resourceVersion = obj.resourceVersion then
        (none, { s with objects := replaceFirst obj.sameKey obj s.objects })
      else (some errConflict, s)

/-- Store calls forced to fail: the read of the owner, and reads, creates and updates by the
name of the document they are about. -/
structure Faults where
  owner : Option Err
  get : String → Option Err
  create : String → Option Err
  update : String → Option Err

/-- The reference store with forced failures: a call listed in `f` returns its error
and has no effect, every other call is the one of `storeClient`. -/
def faultyClient (f : Faults) : Client Cluster where
  GetPDS req s :=
    match f.owner with
    | some err => (Except.error err, s)
    | none => storeClient.GetPDS req s
  Get apiVersion kind key s :=
    match f.get key.Name with
    | some err => (Except.error err, s)
    | none => storeClient.Get apiVersion kind key s
  Create obj s :=
    match f.create obj.name with
    | some err => (some err, s)
    | none => storeClient.Create obj s
  Update obj s :=
    match f.update obj.name with
    | some err => (some err, s)
    | none => storeClient.Update obj s

/-- Running `Reconcile` twice in succession: the second pass starts from the store the first left. -/
def reconcileTwice {σ : Type} (c : Client σ) (req : NamespacedName) (s : σ) : Pass σ :=
  Reconcile c req (Reconcile c req s).cluster

/-! ## Example documents -/

/-- The content `spec: (x: n)`. -/
def specX (n : Int) : Fields :=
  Fields.cons "spec" (Value.map (Fields.cons "x" (Value.num n) Fields.nil)) Fields.nil

/-- The template `kind: Foo, name: bar, spec: (x: n)` with no namespace. -/
def fooBar (n : Int) : Unstructured :=
  { apiVersion := "v1", kind := "Foo", name := "bar", Namespace := "", resourceVersion := "",
    Object := specX n }

/-- The stored document `Foo/bar` in `team-a` with `spec: (x: n)` and `status: (ready: true)`. -/
def storedFooBar (n : Int) : Unstructured :=
  { apiVersion := "v1", kind := "Foo", name := "bar", Namespace := "team-a", resourceVersion := "7",
    Object := Fields.cons "status" (Value.map (Fields.cons "ready" (Value.bool true) Fields.nil)) (specX n) }

/-- The owner `team-a/stream` with the given templates. -/
def streamOf (ts : List Unstructured) : ProjectDevelopmentStream :=
  { Namespace := "team-a", Name := "stream", Resources := ts }

/-- The request for `team-a/stream`. -/
def streamReq : NamespacedName := { Namespace := "team-a", Name := "stream" }

/-- A store holding the owner with templates `ts` and the documents `objs`. -/
def clusterOf (ts objs : List Unstructured) : Cluster :=
  { streams := [streamOf ts], objects := objs }

/-- Fail every update of the document named `n` with `err`. -/
def failUpdate (n : String) (err : Err) : Faults :=
  { owner := none, get := fun _ => none, create := fun _ => none,
    update := fun m => if m = n then some err else none }

/-- Fail every read of the document named `n` with `err`. -/
def failGet (n : String) (err : Err) : Faults :=
  { owner := none, get := fun m => if m = n then some err else none, create := fun _ => none,
    update := fun _ => none }

/-- An error that is neither not-found nor a conflict. -/
def errUnavailable : Err := ⟨StatusReason.Unknown, "store unavailable"⟩


/-! ## Names for the parts of one iteration -/

/-- The logger of one iteration: the pass logger with the identity of the item attached. -/
def itemLogger (log : Logger) (t : Unstructured) : Logger :=
  log.WithValues [("apiVersion", t.apiVersion), ("kind", t.kind), ("name", t.name)]

/-- The concrete item of template `t`: its copy with the namespace of the owner. -/
def concrete (pds : ProjectDevelopmentStream) (t : Unstructured) : Unstructured :=
  t.DeepCopy.SetNamespace pds.GetNamespace

/-- The log lines an iteration writes before it reads the store. -/
def preamble (log : Logger) (pds : ProjectDevelopmentStream) (t : Unstructured) : List Event :=
  Event.Info (itemLogger log t) "Creating/Updating resource" [] ::
    (if t.Namespace ≠ "" ∧ t.Namespace ≠ pds.Namespace then
      [Event.Info (itemLogger log t) "Resource namespace set to ProjectDevelopmentStream namespace"
        [("PDS namespace", pds.Namespace), ("resource original namespace", t.Namespace)]]
    else [])

/-- The read of the existing document an iteration issues for template `t`. -/
def fetch {σ : Type} (c : Client σ) (pds : ProjectDevelopmentStream) (t : Unstructured) (s : σ) :
    Except Err Unstructured × σ :=
  c.Get t.apiVersion t.kind ⟨pds.Namespace, t.name⟩ s

/-- The trace entry of that read. -/
def fetched (pds : ProjectDevelopmentStream) (t : Unstructured) (res : Except Err Unstructured) : Event :=
  Event.Get t.apiVersion t.kind ⟨pds.Namespace, t.name⟩ res

/-- The document `update` the update path builds from `existing` and the concrete item. -/
def candidate (resource existing : Unstructured) : Unstructured :=
  match NestedMap resource.Object "spec" with
  | (m, true, _) => { existing with Object := existing.Object.set "spec" (Value.map m) }
  | (_, false, _) => existing

/-- Whether the event is a store create call. -/
def Event.isCreate : Event → Bool
  | Event.Create _ _ => true
  | _ => false

/-- Whether the event is a store update call. -/
def Event.isUpdate : Event → Bool
  | Event.Update _ _ => true
  | _ => false

/-- The key of a read of a document, for the events that are one. -/
def Event.getKey : Event → Option (String × String × NamespacedName)
  | Event.Get apiVersion kind key _ => some (apiVersion, kind, key)
  | _ => none

/-- The message of a log line, for the events that are one. -/
def Event.message : Event → Option String
  | Event.Info _ msg _ => some msg
  | Event.Error _ _ msg => some msg
  | _ => none

/-- The outcomes of an item whose store interaction failed. -/
def Outcome.isFailure : Outcome → Bool
  | Outcome.CreateFailed => true
  | Outcome.ReadFailed => true
  | Outcome.UpdateFailed => true
  | Outcome.Conflict => true
  | _ => false

/-- The loop state at the start of a pass over the templates of `pds` on store state `s`:
no requeue requested, nothing traced yet. -/
def LoopState.fresh {σ : Type} (pds : ProjectDevelopmentStream) (s : σ) : LoopState σ :=
  { pds := pds, ctrlResult := { Requeue := false, RequeueAfter := 0 }, cluster := s,
    events := [], outcomes := [] }

/-- One iteration on its own: the loop body for template `t` started on store state `s`. -/
def itemStep {σ : Type} (c : Client σ) (log : Logger) (pds : ProjectDevelopmentStream)
    (t : Unstructured) (s : σ) : LoopState σ :=
  reconcileResource c log (LoopState.fresh pds s) t

/-- A pass on its own: the loop over `ts` started on store state `s`. -/
def pass {σ : Type} (c : Client σ) (log : Logger) (pds : ProjectDevelopmentStream)
    (ts : List Unstructured) (s : σ) : LoopState σ :=
  applyResources c log (LoopState.fresh pds s) ts

/-- The logger of a pass: the name of the owner attached. -/
def passLogger (pds : ProjectDevelopmentStream) : Logger :=
  Logger.WithValues [] [("PDS name", pds.Name)]

/-- The trace holds a store update call that failed with a conflict error. -/
def HasConflict (evs : List Event) : Prop :=
  ∃ obj err, Event.Update obj (some err) ∈ evs ∧ IsConflict err = true

/-- The template `Foo/bar` asking for the foreign namespace `team-b`. -/
def foreignFooBar (n : Int) : Unstructured :=
  { apiVersion := "v1", kind := "Foo", name := "bar", Namespace := "team-b", resourceVersion := "",
    Object := specX n }

/-- The template `kind: Foo, name: baz, spec: (x: n)` with no namespace. -/
def fooBaz (n : Int) : Unstructured :=
  { apiVersion := "v1", kind := "Foo", name := "baz", Namespace := "", resourceVersion := "",
    Object := specX n }

/-- Whether `u` is stored under the key an iteration for template `t` of `pds` reads. -/
def stored (pds : ProjectDevelopmentStream) (t : Unstructured) (u : Unstructured) : Bool :=
  u.hasKey t.apiVersion t.kind ⟨pds.Namespace, t.name⟩

/-- No forced failure at all: `faultyClient noFaults` is the reference store. -/
def noFaults : Faults :=
  { owner := none, get := fun _ => none, create := fun _ => none, update := fun _ => none }

/-- Fail the read of the owner with `err`. -/
def failOwner (err : Err) : Faults :=
  { owner := some err, get := fun _ => none, create := fun _ => none, update := fun _ => none }

/-- Documents `d` and `d'` have the same identity and version token and agree on every
field other than `spec`. -/
def SameButSpec (d d' : Unstructured) : Prop :=
  d'.apiVersion = d.apiVersion ∧ d'.kind = d.kind ∧ d'.name = d.name ∧
    d'.Namespace = d.Namespace ∧ d'.resourceVersion = d.resourceVersion ∧
    ∀ k, k ≠ "spec" → d'.Object.lookup k = d.Object.lookup k

/-- The second collection keeps every document of the first, position by position, changed
in `spec` at most, and may hold further documents after them. -/
inductive Preserved : List Unstructured → List Unstructured → Prop where
  | nil (added : List Unstructured) : Preserved [] added
  | cons {d d' : Unstructured} {l l' : List Unstructured} :
    SameButSpec d d' → Preserved l l' → Preserved (d :: l) (d' :: l')

/-! ## Keyed stores

What the idempotence of a pass needs of a store, whatever it takes for the key of a
document: reads leave the state alone and depend on the key only, a document read under a
key has that key, and an accepted write is what the next read under its key returns, while
reads under other keys and reads of owners are as before. -/

/-- The laws of a store keyed by `key` that stores accepted documents as submitted. -/
structure KeyedStore {σ K : Type} (c : Client σ)
    (key : String → String → NamespacedName → K) : Prop where
  getPDS_state : ∀ req s, (c.GetPDS req s).2 = s
  get_state : ∀ apiVersion kind nn s, (c.Get apiVersion kind nn s).2 = s
  get_key : ∀ apiVersion kind nn apiVersion' kind' nn' s,
    key apiVersion kind nn = key apiVersion' kind' nn' →
      (c.Get apiVersion kind nn s).1 = (c.Get apiVersion' kind' nn' s).1
  get_ok : ∀ apiVersion kind nn s d, (c.Get apiVersion kind nn s).1 = Except.ok d →
    key d.apiVersion d.kind ⟨d.Namespace, d.name⟩ = key apiVersion kind nn
  create_get : ∀ obj s s', c.Create obj s = (none, s') → ∀ apiVersion kind nn,
    (key apiVersion kind nn = key obj.apiVersion obj.kind ⟨obj.Namespace, obj.name⟩ →
      (c.Get apiVersion kind nn s').1 = Except.ok obj) ∧
    (key apiVersion kind nn ≠ key obj.apiVersion obj.kind ⟨obj.Namespace, obj.name⟩ →
      (c.Get apiVersion kind nn s').1 = (c.Get apiVersion kind nn s).1)
  update_get : ∀ obj s s', c.Update obj s = (none, s') → ∀ apiVersion kind nn,
    (key apiVersion kind nn = key obj.apiVersion obj.kind ⟨obj.Namespace, obj.name⟩ →
      (c.Get apiVersion kind nn s').1 = Except.ok obj) ∧
    (key apiVersion kind nn ≠ key obj.apiVersion obj.kind ⟨obj.Namespace, obj.name⟩ →
      (c.Get apiVersion kind nn s').1 = (c.Get apiVersion kind nn s).1)
  create_owner : ∀ obj s s', c.Create obj s = (none, s') →
    ∀ req, (c.GetPDS req s').1 = (c.GetPDS req s).1
  update_owner : ∀ obj s s', c.Update obj s = (none, s') →
    ∀ req, (c.GetPDS req s').1 = (c.GetPDS req s).1

/-- The store, in state `s`, returns for template `t` a document the update path leaves
alone: the candidate built from it is deep-equal to it. -/
def SettledAt {σ : Type} (c : Client σ) (pds : ProjectDevelopmentStream) (s : σ)
    (t : Unstructured) : Prop :=
  ∃ d, (fetch c pds t s).1 = Except.ok d ∧
    DeepEqual d.Object (candidate (concrete pds t) d).Object = true

/-- Every document the store returns in state `s` has well-formed content. -/
def StoreWF {σ : Type} (c : Client σ) (s : σ) : Prop :=
  ∀ apiVersion kind nn d, (c.Get apiVersion kind nn s).1 = Except.ok d → d.Object.WF = true

/-- Templates `t` and `r` of owner `pds` do not compete for a stored document: when they
have the same store key and both hold a mapping under `spec`, the two mappings are
deep-equal. -/
def Agree {K : Type} (key : String → String → NamespacedName → K)
    (pds : ProjectDevelopmentStream) (t r : Unstructured) : Prop :=
  key t.apiVersion t.kind ⟨pds.Namespace, t.name⟩ = key r.apiVersion r.kind ⟨pds.Namespace, r.name⟩ →
    ∀ m m', t.Object.lookup "spec" = some (Value.map m) →
      r.Object.lookup "spec" = some (Value.map m') →
      (Value.map m).DeepEqual (Value.map m') = true

/-- The reference store for any way `p` of telling whether a document is stored under a
requested (apiVersion, kind, namespace and name); `storeClient` is `listClient` of
`Unstructured.hasKey`. -/
def listClient (p : String → String → NamespacedName → Unstructured → Bool) : Client Cluster where
  GetPDS req s :=
    match s.streams.find? (fun o => o.Namespace == req.Namespace && o.Name == req.Name) with
    | some pds => (Except.ok pds, s)
    | none => (Except.error errNotFound, s)
  Get apiVersion kind key s :=
    match s.objects.find? (p apiVersion kind key) with
    | some u => (Except.ok u, s)
    | none => (Except.error errNotFound, s)
  Create obj s :=
    match s.objects.find? (p obj.apiVersion obj.kind (ObjectKeyFromObject obj)) with
    | some _ => (some errAlreadyExists, s)
    | none => (none, { s with objects := s.objects ++ [obj] })
  Update obj s :=
    match s.objects.find? (p obj.apiVersion obj.kind (ObjectKeyFromObject obj)) with
    | none => (some errNotFound, s)
    | some cur =>
      if cur.resourceVersion = obj.resourceVersion then
        (none, ⟨s.streams,
          replaceFirst (p obj.apiVersion obj.kind (ObjectKeyFromObject obj)) obj s.objects⟩)
      else (some errConflict, s)

/-- The key of the reference store: apiVersion, kind, namespace and name. -/
def fullKey (apiVersion kind : String) (nn : NamespacedName) : String × String × String × String :=
  (apiVersion, kind, nn.Namespace, nn.Name)

/-- The key of section 6 of the specification: kind, namespace and name. -/
def kindKey (_apiVersion kind : String) (nn : NamespacedName) : String × String × String :=
  (kind, nn.Namespace, nn.Name)

/-- Whether `u` is stored under (kind, namespace, name), whatever its apiVersion. -/
def hasKindKey (_apiVersion kind : String) (key : NamespacedName) (u : Unstructured) : Bool :=
  u.kind == kind && u.Namespace == key.Namespace && u.name == key.Name

/-- The template `Foo/bar` of apiVersion `v2` with `spec: (x: n)`. -/
def fooBarV2 (n : Int) : Unstructured :=
  { apiVersion := "v2", kind := "Foo", name := "bar", Namespace := "", resourceVersion := "",
    Object := specX n }

/-- Fail every create of the document named `n` with `err`. -/
def failCreate (n : String) (err : Err) : Faults :=
  { owner := none, get := fun _ => none, create := fun m => if m = n then some err else none,
    update := fun _ => none }

/-! ## The loop body, branch by branch -/

section Body

variable {σ : Type}

theorem updateResource_eq (c : Client σ) (log : Logger) (resource existing : Unstructured)
    (st : LoopState σ) :
    updateResource c log resource existing st =
      if DeepEqual existing.Object (candidate resource existing).Object then
        { st with
          events := st.events ++ [Event.Info log "Resource already up to date" []]
          outcomes := st.outcomes ++ [Outcome.Unchanged] }
      else
        match c.Update (candidate resource existing) st.cluster with
        | (some err, s) =>
          { pds := st.pds
            ctrlResult := if IsConflict err then { Requeue := true, RequeueAfter := 0 } else st.ctrlResult
            cluster := s
            events := st.events ++ [Event.Update (candidate resource existing) (some err),
              Event.Error log err "Failed to update resource", Event.Info log "Resource updated" []]
            outcomes := st.outcomes ++ [if IsConflict err then Outcome.Conflict else Outcome.UpdateFailed] }
        | (none, s) =>
          { st with
            cluster := s
            events := st.events ++ [Event.Update (candidate resource existing) none,
              Event.Info log "Resource updated" []]
            outcomes := st.outcomes ++ [Outcome.Updated] } := by
  unfold updateResource candidate
  simp only [SetNestedMap, Unstructured.DeepCopy]
  rcases hn : NestedMap resource.Object "spec" with ⟨m, ok, e⟩
  cases ok <;> simp only [] <;> split <;> try rfl
  all_goals
    split <;> (try split) <;>
      simp_all [LoopState.emit, LoopState.call, LoopState.finish]

theorem reconcileResource_eq (c : Client σ) (log : Logger) (st : LoopState σ) (t : Unstructured) :
    reconcileResource c log st t =
      match fetch c st.pds t st.cluster with
      | (Except.error err, s) =>
        if IsNotFound err then
          match c.Create (concrete st.pds t) s with
          | (some cerr, s2) =>
            { st with
              cluster := s2
              events := st.events ++ preamble log st.pds t ++
                [fetched st.pds t (Except.error err),
                  Event.Info (itemLogger log t) "Creating new resource" [],
                  Event.Create (concrete st.pds t) (some cerr),
                  Event.Error (itemLogger log t) cerr "Failed to create resource"]
              outcomes := st.outcomes ++ [Outcome.CreateFailed] }
          | (none, s2) =>
            { st with
              cluster := s2
              events := st.events ++ preamble log st.pds t ++
                [fetched st.pds t (Except.error err),
                  Event.Info (itemLogger log t) "Creating new resource" [],
                  Event.Create (concrete st.pds t) none]
              outcomes := st.outcomes ++ [Outcome.Created] }
        else
          { st with
            cluster := s
            events := st.events ++ preamble log st.pds t ++
              [fetched st.pds t (Except.error err),
                Event.Error (itemLogger log t) err "Failed to read existing resource"]
            outcomes := st.outcomes ++ [Outcome.ReadFailed] }
      | (Except.ok existing, s) =>
        updateResource c (itemLogger log t) (concrete st.pds t) existing
          { st with
            cluster := s
            events := st.events ++ preamble log st.pds t ++ [fetched st.pds t (Except.ok existing)] } := by
  unfold reconcileResource fetch
  simp only [Unstructured.DeepCopy, Unstructured.GetAPIVersion, Unstructured.GetKind,
    Unstructured.GetName, Unstructured.GetNamespace, Unstructured.SetNamespace,
    ProjectDevelopmentStream.GetNamespace, ObjectKeyFromObject, LoopState.emit, LoopState.call,
    LoopState.finish, concrete, preamble, fetched, itemLogger]
  by_cases hns : t.Namespace ≠ "" ∧ t.Namespace ≠ st.pds.Namespace
  · simp only [if_pos hns]
    split <;> (try split) <;> (try split) <;> simp_all
  · simp only [if_neg hns]
    split <;> (try split) <;> (try split) <;> simp_all

end Body

/-! ## Lookup and assignment on mappings -/

namespace Fields

theorem lookup_set_self (k : String) (v : Value) : ∀ f : Fields, (f.set k v).lookup k = some v
  | .nil => by simp [set, lookup]
  | .cons l w rest => by
    by_cases h : l = k
    · simp [set, lookup, h]
    · simp [set, lookup, h, lookup_set_self k v rest]

theorem lookup_set_ne (k k' : String) (v : Value) (hne : k' ≠ k) :
    ∀ f : Fields, (f.set k v).lookup k' = f.lookup k'
  | .nil => by
    have : ¬ k = k' := fun h => hne h.symm
    simp [set, lookup, this]
  | .cons l w rest => by
    by_cases h : l = k
    · have : ¬ l = k' := fun h' => hne (h'.symm.trans h)
      subst h
      simp [set, lookup, this]
    · by_cases h' : l = k'
      · subst h'
        simp [set, lookup, h]
      · simp [set, lookup, h, h', lookup_set_ne k k' v hne rest]

theorem contains_set (k k' : String) (v : Value) :
    ∀ f : Fields, (f.set k v).contains k' = (decide (k' = k) || f.contains k')
  | .nil => by
    by_cases h : k = k'
    · simp [set, contains, h]
    · have : ¬ k' = k := fun h' => h h'.symm
      simp [set, contains, h, this]
  | .cons l w rest => by
    by_cases h : l = k
    · subst h
      by_cases h' : l = k'
      · simp [set, contains, h']
      · have : ¬ k' = l := fun e => h' e.symm
        simp [set, contains, h', this]
    · by_cases h' : l = k'
      · subst h'
        simp [set, contains, h]
      · simp [set, contains, h, h', contains_set k k' v rest]

theorem set_of_lookup (k : String) (v : Value) :
    ∀ f : Fields, f.lookup k = some v → f.set k v = f
  | .nil, h => by simp [lookup] at h
  | .cons l w rest, h => by
    by_cases hl : l = k
    · simp [lookup, hl] at h
      simp [set, hl, h]
    · simp [lookup, hl] at h
      simp [set, hl, set_of_lookup k v rest h]

theorem set_set (k : String) (v : Value) (f : Fields) : (f.set k v).set k v = f.set k v :=
  set_of_lookup k v _ (lookup_set_self k v f)

theorem lookup_of_not_contains (k : String) :
    ∀ f : Fields, f.contains k = false → f.lookup k = none
  | .nil, _ => rfl
  | .cons l w rest, h => by
    by_cases hl : l = k
    · simp [contains, hl] at h
    · simp [contains, hl] at h
      simp [lookup, hl, lookup_of_not_contains k rest h]

theorem wf_cons (k : String) (v : Value) (rest : Fields) :
    (Fields.cons k v rest).WF = true ↔ rest.contains k = false ∧ v.WF = true ∧ rest.WF = true := by
  simp [Fields.WF]

theorem wf_lookup (k : String) (v : Value) :
    ∀ f : Fields, f.WF = true → f.lookup k = some v → v.WF = true
  | .nil, _, h => by simp [lookup] at h
  | .cons l w rest, hwf, h => by
    obtain ⟨_, hw, hrest⟩ := (wf_cons l w rest).mp hwf
    by_cases hl : l = k
    · simp [lookup, hl] at h
      subst h
      exact hw
    · simp [lookup, hl] at h
      exact wf_lookup k v rest hrest h

theorem wf_set (k : String) (v : Value) (hv : v.WF = true) :
    ∀ f : Fields, f.WF = true → (f.set k v).WF = true
  | .nil, _ => by simp [set, Fields.WF, contains, hv]
  | .cons l w rest, hwf => by
    obtain ⟨hnc, hw, hrest⟩ := (wf_cons l w rest).mp hwf
    by_cases hl : l = k
    · simp only [set, hl, if_true]
      rw [wf_cons]
      subst hl
      exact ⟨hnc, hv, hrest⟩
    · simp only [set, hl, if_false]
      rw [wf_cons]
      refine ⟨?_, hw, wf_set k v hv rest hrest⟩
      rw [contains_set, hnc]
      simp [hl]

theorem set_set_key (k : String) (v v' : Value) :
    ∀ f : Fields, (f.set k v).set k v' = f.set k v'
  | .nil => by simp [set]
  | .cons l w rest => by
    by_cases hl : l = k
    · simp [set, hl]
    · simp [set, hl, set_set_key k v v' rest]

theorem length_set (k : String) (v v' : Value) :
    ∀ f : Fields, (f.set k v).length = (f.set k v').length
  | .nil => by simp [set, length]
  | .cons l w rest => by
    by_cases hl : l = k
    · simp [set, hl, length]
    · simp [set, hl, length, length_set k v v' rest]

theorem contains_of_lookup (k : String) (v : Value) :
    ∀ f : Fields, f.lookup k = some v → f.contains k = true
  | .nil, h => by simp [lookup] at h
  | .cons l w rest, h => by
    by_cases hl : l = k
    · simp [contains, hl]
    · simp only [lookup, hl, if_false] at h
      simp [contains, hl, contains_of_lookup k v rest h]

/-- A mapping without repeated keys is contained, up to deep equality, in any mapping that
holds a deep-equal value under each of its keys. -/
theorem subEqual_of_related : ∀ f : Fields, f.WF = true → ∀ g : Fields,
    (∀ l w, f.lookup l = some w → ∃ w', g.lookup l = some w' ∧ w.DeepEqual w' = true) →
    f.subEqual g = true
  | .nil, _, _, _ => by simp [Fields.subEqual]
  | .cons k v rest, hwf, g, hg => by
    obtain ⟨hnc, _, hrest⟩ := (wf_cons k v rest).mp hwf
    obtain ⟨w', hw', hvw⟩ := hg k v (by simp [lookup])
    have hrec : rest.subEqual g = true := by
      apply subEqual_of_related rest hrest g
      intro l w hl
      have hne : ¬ k = l := by
        intro e
        subst e
        rw [contains_of_lookup _ _ _ hl] at hnc
        cases hnc
      exact hg l w (by simp [lookup, hne, hl])
    simp [Fields.subEqual, hw', hvw, hrec]

end Fields

theorem nestedMap_of_map (obj m : Fields) (field : String)
    (h : obj.lookup field = some (Value.map m)) : NestedMap obj field = (m, true, none) := by
  simp [NestedMap, h]

theorem nestedMap_of_none (obj : Fields) (field : String) (h : obj.lookup field = none) :
    NestedMap obj field = (Fields.nil, false, none) := by
  simp [NestedMap, h]

theorem nestedMap_ok_iff (obj : Fields) (field : String) :
    (NestedMap obj field).2.1 = true ↔
      obj.lookup field = some (Value.map (NestedMap obj field).1) := by
  unfold NestedMap
  split <;> simp_all

theorem candidate_of_ok (resource existing : Unstructured)
    (h : (NestedMap resource.Object "spec").2.1 = true) :
    candidate resource existing =
      { existing with
        Object := existing.Object.set "spec" (Value.map (NestedMap resource.Object "spec").1) } := by
  unfold candidate
  rcases hn : NestedMap resource.Object "spec" with ⟨m, ok, e⟩
  rw [hn] at h
  simp at h
  subst h
  rfl

theorem candidate_of_not_ok (resource existing : Unstructured)
    (h : (NestedMap resource.Object "spec").2.1 = false) :
    candidate resource existing = existing := by
  unfold candidate
  rcases hn : NestedMap resource.Object "spec" with ⟨m, ok, e⟩
  rw [hn] at h
  simp at h
  subst h
  rfl

/-! ## Deep equality is reflexive on well-formed content -/

mutual
theorem Value.valueDeepEqual_refl : ∀ v : Value, v.WF = true → v.DeepEqual v = true
  | .null, _ => by simp [Value.DeepEqual]
  | .bool _, _ => by simp [Value.DeepEqual]
  | .num _, _ => by simp [Value.DeepEqual]
  | .str _, _ => by simp [Value.DeepEqual]
  | .list xs, h => by
    simp only [Value.DeepEqual]
    exact ValueList.listDeepEqual_refl xs (by simpa [Value.WF] using h)
  | .map f, h => by
    simp only [Value.DeepEqual, beq_self_eq_true, Bool.true_and]
    exact Fields.subEqual_of_agree f (by simpa [Value.WF] using h) f (fun _ _ => rfl)
theorem ValueList.listDeepEqual_refl : ∀ xs : ValueList, xs.WF = true → xs.DeepEqual xs = true
  | .nil, _ => by simp [ValueList.DeepEqual]
  | .cons v rest, h => by
    simp only [ValueList.WF, Bool.and_eq_true] at h
    simp [ValueList.DeepEqual, Value.valueDeepEqual_refl v h.1, ValueList.listDeepEqual_refl rest h.2]
theorem Fields.subEqual_of_agree : ∀ f : Fields, f.WF = true → ∀ g : Fields,
    (∀ k, f.contains k = true → g.lookup k = f.lookup k) → f.subEqual g = true
  | .nil, _, _, _ => by simp [Fields.subEqual]
  | .cons k v rest, hwf, g, hg => by
    obtain ⟨hnc, hv, hrest⟩ := (Fields.wf_cons k v rest).mp hwf
    have hk : g.lookup k = some v := by
      rw [hg k (by simp [Fields.contains])]
      simp [Fields.lookup]
    have hrec : rest.subEqual g = true := by
      apply Fields.subEqual_of_agree rest hrest g
      intro k' hk'
      have hne : ¬ k = k' := by
        intro e
        subst e
        rw [hnc] at hk'
        cases hk'
      rw [hg k' (by simp [Fields.contains, hne, hk'])]
      simp [Fields.lookup, hne]
    simp [Fields.subEqual, hk, Value.valueDeepEqual_refl v hv, hrec]
end

theorem deepEqual_refl (f : Fields) (h : f.WF = true) : DeepEqual f f = true := by
  simp only [DeepEqual, beq_self_eq_true, Bool.true_and]
  exact Fields.subEqual_of_agree f h f (fun _ _ => rfl)

/-- Assigning deep-equal values under the same key of a well-formed mapping gives deep-equal
mappings. -/
theorem deepEqual_set_congr (f : Fields) (k : String) (v v' : Value) (hf : f.WF = true)
    (hv : v.WF = true) (hvv : v.DeepEqual v' = true) :
    DeepEqual (f.set k v) (f.set k v') = true := by
  simp only [DeepEqual, Fields.length_set k v v' f, beq_self_eq_true, Bool.true_and]
  apply Fields.subEqual_of_related _ (Fields.wf_set k v hv f hf)
  intro l w hl
  by_cases hlk : l = k
  · subst hlk
    rw [Fields.lookup_set_self] at hl
    injection hl with hl
    subst hl
    exact ⟨v', Fields.lookup_set_self _ _ _, hvv⟩
  · rw [Fields.lookup_set_ne k l v hlk] at hl
    exact ⟨w, by rw [Fields.lookup_set_ne k l v' hlk]; exact hl,
      Value.valueDeepEqual_refl w (Fields.wf_lookup _ _ _ hf hl)⟩

/-! ## Framing: an iteration only extends the state it is given -/

section Frame

variable {σ : Type}

theorem reconcileResource_frame (c : Client σ) (log : Logger) (st : LoopState σ) (t : Unstructured) :
    reconcileResource c log st t =
      { pds := st.pds
        ctrlResult :=
          if (itemStep c log st.pds t st.cluster).ctrlResult.Requeue then
            { Requeue := true, RequeueAfter := 0 }
          else st.ctrlResult
        cluster := (itemStep c log st.pds t st.cluster).cluster
        events := st.events ++ (itemStep c log st.pds t st.cluster).events
        outcomes := st.outcomes ++ (itemStep c log st.pds t st.cluster).outcomes } := by
  simp only [itemStep, reconcileResource_eq, updateResource_eq, LoopState.fresh]
  split
  · split
    · split <;> simp
    · simp
  · split
    · simp
    · split
      · split <;> simp_all
      · simp

/-- The six ways through one iteration, each with the state it leaves. -/
theorem itemStep_cases (c : Client σ) (log : Logger) (pds : ProjectDevelopmentStream)
    (t : Unstructured) (s : σ) :
    (∃ err s1, fetch c pds t s = (Except.error err, s1) ∧ IsNotFound err = false ∧
      itemStep c log pds t s =
        { pds := pds, ctrlResult := { Requeue := false, RequeueAfter := 0 }, cluster := s1
          events := preamble log pds t ++
            [fetched pds t (Except.error err),
              Event.Error (itemLogger log t) err "Failed to read existing resource"]
          outcomes := [Outcome.ReadFailed] }) ∨
    (∃ err s1 cerr s2, fetch c pds t s = (Except.error err, s1) ∧ IsNotFound err = true ∧
      c.Create (concrete pds t) s1 = (some cerr, s2) ∧
      itemStep c log pds t s =
        { pds := pds, ctrlResult := { Requeue := false, RequeueAfter := 0 }, cluster := s2
          events := preamble log pds t ++
            [fetched pds t (Except.error err),
              Event.Info (itemLogger log t) "Creating new resource" [],
              Event.Create (concrete pds t) (some cerr),
              Event.Error (itemLogger log t) cerr "Failed to create resource"]
          outcomes := [Outcome.CreateFailed] }) ∨
    (∃ err s1 s2, fetch c pds t s = (Except.error err, s1) ∧ IsNotFound err = true ∧
      c.Create (concrete pds t) s1 = (none, s2) ∧
      itemStep c log pds t s =
        { pds := pds, ctrlResult := { Requeue := false, RequeueAfter := 0 }, cluster := s2
          events := preamble log pds t ++
            [fetched pds t (Except.error err),
              Event.Info (itemLogger log t) "Creating new resource" [],
              Event.Create (concrete pds t) none]
          outcomes := [Outcome.Created] }) ∨
    (∃ existing s1, fetch c pds t s = (Except.ok existing, s1) ∧
      DeepEqual existing.Object (candidate (concrete pds t) existing).Object = true ∧
      itemStep c log pds t s =
        { pds := pds, ctrlResult := { Requeue := false, RequeueAfter := 0 }, cluster := s1
          events := preamble log pds t ++
            [fetched pds t (Except.ok existing),
              Event.Info (itemLogger log t) "Resource already up to date" []]
          outcomes := [Outcome.Unchanged] }) ∨
    (∃ existing s1 uerr s2, fetch c pds t s = (Except.ok existing, s1) ∧
      DeepEqual existing.Object (candidate (concrete pds t) existing).Object = false ∧
      c.Update (candidate (concrete pds t) existing) s1 = (some uerr, s2) ∧
      itemStep c log pds t s =
        { pds := pds, ctrlResult := { Requeue := IsConflict uerr, RequeueAfter := 0 }, cluster := s2
          events := preamble log pds t ++
            [fetched pds t (Except.ok existing),
              Event.Update (candidate (concrete pds t) existing) (some uerr),
              Event.Error (itemLogger log t) uerr "Failed to update resource",
              Event.Info (itemLogger log t) "Resource updated" []]
          outcomes := [if IsConflict uerr then Outcome.Conflict else Outcome.UpdateFailed] }) ∨
    (∃ existing s1 s2, fetch c pds t s = (Except.ok existing, s1) ∧
      DeepEqual existing.Object (candidate (concrete pds t) existing).Object = false ∧
      c.Update (candidate (concrete pds t) existing) s1 = (none, s2) ∧
      itemStep c log pds t s =
        { pds := pds, ctrlResult := { Requeue := false, RequeueAfter := 0 }, cluster := s2
          events := preamble log pds t ++
            [fetched pds t (Except.ok existing),
              Event.Update (candidate (concrete pds t) existing) none,
              Event.Info (itemLogger log t) "Resource updated" []]
          outcomes := [Outcome.Updated] }) := by
  rcases hf : fetch c pds t s with ⟨err | existing, s1⟩
  · cases hnf : IsNotFound err
    · refine Or.inl ⟨err, s1, rfl, hnf, ?_⟩
      simp [itemStep, reconcileResource_eq, LoopState.fresh, hf, hnf]
    · rcases hc : c.Create (concrete pds t) s1 with ⟨_ | cerr, s2⟩
      · refine Or.inr (Or.inr (Or.inl ⟨err, s1, s2, rfl, hnf, hc, ?_⟩))
        simp [itemStep, reconcileResource_eq, LoopState.fresh, hf, hnf, hc]
      · refine Or.inr (Or.inl ⟨err, s1, cerr, s2, rfl, hnf, hc, ?_⟩)
        simp [itemStep, reconcileResource_eq, LoopState.fresh, hf, hnf, hc]
  · cases hd : DeepEqual existing.Object (candidate (concrete pds t) existing).Object
    · rcases hu : c.Update (candidate (concrete pds t) existing) s1 with ⟨_ | uerr, s2⟩
      · refine Or.inr (Or.inr (Or.inr (Or.inr (Or.inr ⟨existing, s1, s2, rfl, hd, hu, ?_⟩))))
        simp [itemStep, reconcileResource_eq, updateResource_eq, LoopState.fresh, hf, hd, hu]
      · refine Or.inr (Or.inr (Or.inr (Or.inr (Or.inl ⟨existing, s1, uerr, s2, rfl, hd, hu, ?_⟩))))
        cases hcf : IsConflict uerr <;>
          simp [itemStep, reconcileResource_eq, updateResource_eq, LoopState.fresh, hf, hd, hu, hcf]
    · refine Or.inr (Or.inr (Or.inr (Or.inl ⟨existing, s1, rfl, hd, ?_⟩)))
      simp [itemStep, reconcileResource_eq, updateResource_eq, LoopState.fresh, hf, hd]

theorem itemStep_pds (c : Client σ) (log : Logger) (pds : ProjectDevelopmentStream)
    (t : Unstructured) (s : σ) : (itemStep c log pds t s).pds = pds := by
  unfold itemStep
  rw [reconcileResource_frame]
  rfl

theorem applyResources_nil (c : Client σ) (log : Logger) (st : LoopState σ) :
    applyResources c log st [] = st := rfl

theorem applyResources_cons (c : Client σ) (log : Logger) (st : LoopState σ) (t : Unstructured)
    (ts : List Unstructured) :
    applyResources c log st (t :: ts) = applyResources c log (reconcileResource c log st t) ts := rfl

theorem applyResources_append (c : Client σ) (log : Logger) (st : LoopState σ)
    (as bs : List Unstructured) :
    applyResources c log st (as ++ bs) = applyResources c log (applyResources c log st as) bs := by
  unfold applyResources
  exact List.foldl_append _ _ _ _

theorem pass_nil (c : Client σ) (log : Logger) (pds : ProjectDevelopmentStream) (s : σ) :
    pass c log pds [] s = LoopState.fresh pds s := rfl

theorem pass_cons (c : Client σ) (log : Logger) (pds : ProjectDevelopmentStream) (t : Unstructured)
    (ts : List Unstructured) (s : σ) :
    pass c log pds (t :: ts) s = applyResources c log (itemStep c log pds t s) ts := rfl

theorem applyResources_frame (c : Client σ) (log : Logger) (ts : List Unstructured) :
    ∀ st : LoopState σ, applyResources c log st ts =
      { pds := st.pds
        ctrlResult :=
          if (pass c log st.pds ts st.cluster).ctrlResult.Requeue then
            { Requeue := true, RequeueAfter := 0 }
          else st.ctrlResult
        cluster := (pass c log st.pds ts st.cluster).cluster
        events := st.events ++ (pass c log st.pds ts st.cluster).events
        outcomes := st.outcomes ++ (pass c log st.pds ts st.cluster).outcomes } := by
  induction ts with
  | nil =>
    intro st
    cases st
    simp [applyResources_nil, pass_nil, LoopState.fresh]
  | cons t ts ih =>
    intro st
    rw [applyResources_cons, pass_cons, ih (reconcileResource c log st t),
      ih (itemStep c log st.pds t st.cluster), itemStep_pds]
    rw [reconcileResource_frame c log st t]
    simp only [List.append_assoc]
    congr 1
    by_cases h1 : (pass c log st.pds ts (itemStep c log st.pds t st.cluster).cluster).ctrlResult.Requeue = true
    · simp [h1]
    · by_cases h2 : (itemStep c log st.pds t st.cluster).ctrlResult.Requeue = true
      · simp [h1, h2]
      · simp [h1, h2]

theorem pass_pds (c : Client σ) (log : Logger) (pds : ProjectDevelopmentStream)
    (ts : List Unstructured) (s : σ) : (pass c log pds ts s).pds = pds := by
  unfold pass
  rw [applyResources_frame]
  rfl

end Frame

/-! ## `Reconcile` in terms of the pass over the templates -/

section ReconcileShape

variable {σ : Type}

theorem Reconcile_of_error (c : Client σ) (req : NamespacedName) (s s1 : σ) (err : Err)
    (h : c.GetPDS req s = (Except.error err, s1)) :
    Reconcile c req s =
      { result := { Requeue := false, RequeueAfter := 0 }
        err := IgnoreNotFound err
        cluster := s1
        events := [Event.GetPDS req (Except.error err),
          Event.Error [] err "Unable to fetch ProjectDevelopmentStream"]
        outcomes := []
        pds := none } := by
  unfold Reconcile
  rw [h]

theorem Reconcile_of_ok (c : Client σ) (req : NamespacedName) (s s1 : σ)
    (pds : ProjectDevelopmentStream) (h : c.GetPDS req s = (Except.ok pds, s1)) :
    Reconcile c req s =
      { result :=
          if (pass c (passLogger pds) pds pds.Resources s1).ctrlResult.Requeue then
            { Requeue := true, RequeueAfter := 0 }
          else { Requeue := false, RequeueAfter := 0 }
        err := none
        cluster := (pass c (passLogger pds) pds pds.Resources s1).cluster
        events := [Event.GetPDS req (Except.ok pds),
          Event.Info (passLogger pds) "Applying resources from ProjectDevelopmentStream" []] ++
            (pass c (passLogger pds) pds pds.Resources s1).events
        outcomes := (pass c (passLogger pds) pds pds.Resources s1).outcomes
        pds := some pds } := by
  unfold Reconcile
  rw [h]
  simp only [applyResources_frame c _ pds.Resources, passLogger, List.nil_append]

end ReconcileShape

/-! ## Requeue is requested exactly on a conflict -/

section Requeue

variable {σ : Type}

theorem hasConflict_append (a b : List Event) :
    HasConflict (a ++ b) ↔ HasConflict a ∨ HasConflict b := by
  unfold HasConflict
  constructor
  · rintro ⟨obj, err, hmem, hc⟩
    rcases List.mem_append.mp hmem with h | h
    · exact Or.inl ⟨obj, err, h, hc⟩
    · exact Or.inr ⟨obj, err, h, hc⟩
  · rintro (⟨obj, err, h, hc⟩ | ⟨obj, err, h, hc⟩)
    · exact ⟨obj, err, List.mem_append_left _ h, hc⟩
    · exact ⟨obj, err, List.mem_append_right _ h, hc⟩

theorem preamble_getKey (log : Logger) (pds : ProjectDevelopmentStream) (t : Unstructured) :
    ∀ e ∈ preamble log pds t, ∃ l msg kvs, e = Event.Info l msg kvs := by
  intro e he
  unfold preamble at he
  split at he <;> simp at he
  · rcases he with rfl | rfl <;> exact ⟨_, _, _, rfl⟩
  · exact ⟨_, _, _, he⟩

theorem not_update_mem_preamble (log : Logger) (pds : ProjectDevelopmentStream) (t : Unstructured)
    (obj : Unstructured) (res : Option Err) : Event.Update obj res ∉ preamble log pds t := by
  intro h
  rcases preamble_getKey log pds t _ h with ⟨l, msg, kvs, he⟩
  cases he

theorem itemStep_requeue_iff (c : Client σ) (log : Logger) (pds : ProjectDevelopmentStream)
    (t : Unstructured) (s : σ) :
    (itemStep c log pds t s).ctrlResult.Requeue = true ↔ HasConflict (itemStep c log pds t s).events := by
  unfold HasConflict
  rcases itemStep_cases c log pds t s with ⟨err, s1, _, _, h⟩ | ⟨err, s1, cerr, s2, _, _, _, h⟩ |
    ⟨err, s1, s2, _, _, _, h⟩ | ⟨ex, s1, _, _, h⟩ | ⟨ex, s1, uerr, s2, _, _, _, h⟩ |
    ⟨ex, s1, s2, _, _, _, h⟩ <;>
    simp [h, fetched, not_update_mem_preamble]
  constructor
  · intro hc
    exact ⟨_, _, ⟨rfl, rfl⟩, hc⟩
  · rintro ⟨obj, err, ⟨_, rfl⟩, hc⟩
    exact hc

theorem pass_requeue_iff (c : Client σ) (log : Logger) (pds : ProjectDevelopmentStream)
    (ts : List Unstructured) :
    ∀ s : σ, (pass c log pds ts s).ctrlResult.Requeue = true ↔ HasConflict (pass c log pds ts s).events := by
  induction ts with
  | nil =>
    intro s
    simp [pass_nil, LoopState.fresh, HasConflict]
  | cons t ts ih =>
    intro s
    rw [pass_cons, applyResources_frame, itemStep_pds]
    simp only [hasConflict_append, ← ih, ← itemStep_requeue_iff]
    by_cases h1 : (pass c log pds ts (itemStep c log pds t s).cluster).ctrlResult.Requeue = true
    · simp [h1]
    · simp [h1]

end Requeue

/-! ## What the trace of a pass holds -/

section Trace

variable {σ : Type}

theorem preamble_filterMap_getKey (log : Logger) (pds : ProjectDevelopmentStream) (t : Unstructured) :
    (preamble log pds t).filterMap Event.getKey = [] := by
  unfold preamble
  split <;> simp [Event.getKey]

theorem preamble_filter_isCreate (log : Logger) (pds : ProjectDevelopmentStream) (t : Unstructured) :
    (preamble log pds t).filter Event.isCreate = [] := by
  unfold preamble
  split <;> simp [Event.isCreate]

theorem preamble_filter_isUpdate (log : Logger) (pds : ProjectDevelopmentStream) (t : Unstructured) :
    (preamble log pds t).filter Event.isUpdate = [] := by
  unfold preamble
  split <;> simp [Event.isUpdate]

theorem not_create_mem_preamble (log : Logger) (pds : ProjectDevelopmentStream) (t : Unstructured)
    (obj : Unstructured) (res : Option Err) : Event.Create obj res ∉ preamble log pds t := by
  intro h
  rcases preamble_getKey log pds t _ h with ⟨l, msg, kvs, he⟩
  cases he

theorem itemStep_getKeys (c : Client σ) (log : Logger) (pds : ProjectDevelopmentStream)
    (t : Unstructured) (s : σ) :
    (itemStep c log pds t s).events.filterMap Event.getKey =
      [(t.apiVersion, t.kind, ⟨pds.Namespace, t.name⟩)] := by
  rcases itemStep_cases c log pds t s with ⟨err, s1, _, _, h⟩ | ⟨err, s1, cerr, s2, _, _, _, h⟩ |
    ⟨err, s1, s2, _, _, _, h⟩ | ⟨ex, s1, _, _, h⟩ | ⟨ex, s1, uerr, s2, _, _, _, h⟩ |
    ⟨ex, s1, s2, _, _, _, h⟩ <;>
    simp [h, List.filterMap_append, preamble_filterMap_getKey, fetched, Event.getKey]

theorem pass_getKeys (c : Client σ) (log : Logger) (pds : ProjectDevelopmentStream)
    (ts : List Unstructured) :
    ∀ s : σ, (pass c log pds ts s).events.filterMap Event.getKey =
      ts.map (fun t => (t.apiVersion, t.kind, (⟨pds.Namespace, t.name⟩ : NamespacedName))) := by
  induction ts with
  | nil =>
    intro s
    simp [pass_nil, LoopState.fresh]
  | cons t ts ih =>
    intro s
    rw [pass_cons, applyResources_frame, itemStep_pds]
    simp [List.filterMap_append, itemStep_getKeys, ih]

theorem itemStep_create_mem (c : Client σ) (log : Logger) (pds : ProjectDevelopmentStream)
    (t : Unstructured) (s : σ) (obj : Unstructured) (res : Option Err)
    (h : Event.Create obj res ∈ (itemStep c log pds t s).events) : obj = concrete pds t := by
  rcases itemStep_cases c log pds t s with ⟨err, s1, _, _, h1⟩ | ⟨err, s1, cerr, s2, _, _, _, h1⟩ |
    ⟨err, s1, s2, _, _, _, h1⟩ | ⟨ex, s1, _, _, h1⟩ | ⟨ex, s1, uerr, s2, _, _, _, h1⟩ |
    ⟨ex, s1, s2, _, _, _, h1⟩ <;>
    simp [h1, fetched, not_create_mem_preamble] at h <;>
    exact h.1

theorem pass_create_mem (c : Client σ) (log : Logger) (pds : ProjectDevelopmentStream)
    (ts : List Unstructured) :
    ∀ (s : σ) (obj : Unstructured) (res : Option Err),
      Event.Create obj res ∈ (pass c log pds ts s).events → ∃ t ∈ ts, obj = concrete pds t := by
  induction ts with
  | nil =>
    intro s obj res h
    simp [pass_nil, LoopState.fresh] at h
  | cons t ts ih =>
    intro s obj res h
    rw [pass_cons, applyResources_frame, itemStep_pds] at h
    rcases List.mem_append.mp h with h1 | h1
    · exact ⟨t, List.mem_cons_self _ _, itemStep_create_mem c log pds t s obj res h1⟩
    · obtain ⟨t', ht', he⟩ := ih _ obj res h1
      exact ⟨t', List.mem_cons_of_mem _ ht', he⟩

theorem itemStep_update_mem (c : Client σ) (log : Logger) (pds : ProjectDevelopmentStream)
    (t : Unstructured) (s : σ) (obj : Unstructured) (res : Option Err)
    (h : Event.Update obj res ∈ (itemStep c log pds t s).events) :
    ∃ existing s1, fetch c pds t s = (Except.ok existing, s1) ∧
      obj = candidate (concrete pds t) existing ∧
      DeepEqual existing.Object obj.Object = false ∧
      res = (c.Update obj s1).1 := by
  rcases itemStep_cases c log pds t s with ⟨err, s1, _, _, h1⟩ | ⟨err, s1, cerr, s2, _, _, _, h1⟩ |
    ⟨err, s1, s2, _, _, _, h1⟩ | ⟨ex, s1, _, _, h1⟩ | ⟨ex, s1, uerr, s2, hf, hd, hu, h1⟩ |
    ⟨ex, s1, s2, hf, hd, hu, h1⟩ <;>
    simp [h1, fetched, not_update_mem_preamble] at h
  · obtain ⟨rfl, rfl⟩ := h
    exact ⟨ex, s1, hf, rfl, hd, by rw [hu]⟩
  · obtain ⟨rfl, rfl⟩ := h
    exact ⟨ex, s1, hf, rfl, hd, by rw [hu]⟩

end Trace

/-! ## Passes compose, and a failed item leaves no mark on the store -/

section Isolation

variable {σ : Type}

theorem pass_append (c : Client σ) (log : Logger) (pds : ProjectDevelopmentStream)
    (as bs : List Unstructured) (s : σ) :
    pass c log pds (as ++ bs) s =
      { pds := pds
        ctrlResult :=
          if (pass c log pds bs (pass c log pds as s).cluster).ctrlResult.Requeue then
            { Requeue := true, RequeueAfter := 0 }
          else (pass c log pds as s).ctrlResult
        cluster := (pass c log pds bs (pass c log pds as s).cluster).cluster
        events := (pass c log pds as s).events ++
          (pass c log pds bs (pass c log pds as s).cluster).events
        outcomes := (pass c log pds as s).outcomes ++
          (pass c log pds bs (pass c log pds as s).cluster).outcomes } := by
  have h : pass c log pds (as ++ bs) s = applyResources c log (pass c log pds as s) bs := by
    unfold pass
    exact applyResources_append c log _ as bs
  rw [h, applyResources_frame, pass_pds]

theorem pass_cons_eq (c : Client σ) (log : Logger) (pds : ProjectDevelopmentStream)
    (t : Unstructured) (ts : List Unstructured) (s : σ) :
    pass c log pds (t :: ts) s =
      { pds := pds
        ctrlResult :=
          if (pass c log pds ts (itemStep c log pds t s).cluster).ctrlResult.Requeue then
            { Requeue := true, RequeueAfter := 0 }
          else (itemStep c log pds t s).ctrlResult
        cluster := (pass c log pds ts (itemStep c log pds t s).cluster).cluster
        events := (itemStep c log pds t s).events ++
          (pass c log pds ts (itemStep c log pds t s).cluster).events
        outcomes := (itemStep c log pds t s).outcomes ++
          (pass c log pds ts (itemStep c log pds t s).cluster).outcomes } := by
  rw [pass_cons, applyResources_frame, itemStep_pds]

theorem itemStep_outcomes_length (c : Client σ) (log : Logger) (pds : ProjectDevelopmentStream)
    (t : Unstructured) (s : σ) : (itemStep c log pds t s).outcomes.length = 1 := by
  rcases itemStep_cases c log pds t s with ⟨err, s1, _, _, h⟩ | ⟨err, s1, cerr, s2, _, _, _, h⟩ |
    ⟨err, s1, s2, _, _, _, h⟩ | ⟨ex, s1, _, _, h⟩ | ⟨ex, s1, uerr, s2, _, _, _, h⟩ |
    ⟨ex, s1, s2, _, _, _, h⟩ <;>
    simp [h]

theorem pass_outcomes_length (c : Client σ) (log : Logger) (pds : ProjectDevelopmentStream)
    (ts : List Unstructured) : ∀ s : σ, (pass c log pds ts s).outcomes.length = ts.length := by
  induction ts with
  | nil =>
    intro s
    simp [pass_nil, LoopState.fresh]
  | cons t ts ih =>
    intro s
    rw [pass_cons_eq]
    simp [itemStep_outcomes_length, ih]
    omega

/-- An iteration that ends in a failure has issued no store call that took effect, provided
the store leaves its state alone on reads and on writes it rejects. -/
theorem itemStep_cluster_of_failure (c : Client σ)
    (hget : ∀ apiVersion kind key s, (c.Get apiVersion kind key s).2 = s)
    (hcreate : ∀ obj s err, (c.Create obj s).1 = some err → (c.Create obj s).2 = s)
    (hupdate : ∀ obj s err, (c.Update obj s).1 = some err → (c.Update obj s).2 = s)
    (log : Logger) (pds : ProjectDevelopmentStream) (t : Unstructured) (s : σ) (o : Outcome)
    (ho : (itemStep c log pds t s).outcomes = [o]) (hfail : o.isFailure = true) :
    (itemStep c log pds t s).cluster = s := by
  have hfetch : ∀ r s1, fetch c pds t s = (r, s1) → s1 = s := by
    intro r s1 h
    have := hget t.apiVersion t.kind ⟨pds.Namespace, t.name⟩ s
    unfold fetch at h
    rw [h] at this
    exact this
  rcases itemStep_cases c log pds t s with ⟨err, s1, hf, _, h⟩ | ⟨err, s1, cerr, s2, hf, _, hc, h⟩ |
    ⟨err, s1, s2, _, _, _, h⟩ | ⟨ex, s1, _, _, h⟩ | ⟨ex, s1, uerr, s2, hf, _, hu, h⟩ |
    ⟨ex, s1, s2, _, _, _, h⟩
  · rw [h]
    exact hfetch _ _ hf
  · rw [h]
    have h1 := hfetch _ _ hf
    subst h1
    have := hcreate (concrete pds t) s1 cerr (by rw [hc])
    rw [hc] at this
    exact this
  · rw [h] at ho
    simp at ho
    subst ho
    cases hfail
  · rw [h] at ho
    simp at ho
    subst ho
    cases hfail
  · rw [h]
    have h1 := hfetch _ _ hf
    subst h1
    have := hupdate (candidate (concrete pds t) ex) s1 uerr (by rw [hu])
    rw [hu] at this
    exact this
  · rw [h] at ho
    simp at ho
    subst ho
    cases hfail

/-- An iteration that ends in a failure has issued no store write that succeeded. -/
theorem itemStep_no_write_of_failure (c : Client σ) (log : Logger)
    (pds : ProjectDevelopmentStream) (t : Unstructured) (s : σ) (o : Outcome)
    (ho : (itemStep c log pds t s).outcomes = [o]) (hfail : o.isFailure = true)
    (obj : Unstructured) :
    Event.Create obj none ∉ (itemStep c log pds t s).events ∧
    Event.Update obj none ∉ (itemStep c log pds t s).events := by
  rcases itemStep_cases c log pds t s with ⟨err, s1, _, _, h⟩ | ⟨err, s1, cerr, s2, _, _, _, h⟩ |
    ⟨err, s1, s2, _, _, _, h⟩ | ⟨ex, s1, _, _, h⟩ | ⟨ex, s1, uerr, s2, _, _, _, h⟩ |
    ⟨ex, s1, s2, _, _, _, h⟩
  · simp [h, fetched, not_create_mem_preamble, not_update_mem_preamble]
  · simp [h, fetched, not_create_mem_preamble, not_update_mem_preamble]
  · rw [h] at ho
    simp at ho
    subst ho
    cases hfail
  · rw [h] at ho
    simp at ho
    subst ho
    cases hfail
  · simp [h, fetched, not_create_mem_preamble, not_update_mem_preamble]
  · rw [h] at ho
    simp at ho
    subst ho
    cases hfail

theorem faultyClient_get (f : Faults) (apiVersion kind : String) (key : NamespacedName)
    (s : Cluster) : ((faultyClient f).Get apiVersion kind key s).2 = s := by
  simp only [faultyClient, storeClient]
  split
  · rfl
  · split <;> rfl

theorem faultyClient_create (f : Faults) (obj : Unstructured) (s : Cluster) (err : Err)
    (h : ((faultyClient f).Create obj s).1 = some err) : ((faultyClient f).Create obj s).2 = s := by
  simp only [faultyClient, storeClient] at h ⊢
  cases h1 : f.create obj.name with
  | some e => simp
  | none =>
    cases h2 : List.find? obj.sameKey s.objects with
    | some u => simp
    | none => simp [h1, h2] at h

theorem faultyClient_update (f : Faults) (obj : Unstructured) (s : Cluster) (err : Err)
    (h : ((faultyClient f).Update obj s).1 = some err) : ((faultyClient f).Update obj s).2 = s := by
  simp only [faultyClient, storeClient] at h ⊢
  cases h1 : f.update obj.name with
  | some e => simp
  | none =>
    cases h2 : List.find? obj.sameKey s.objects with
    | none => simp
    | some u =>
      by_cases h3 : u.resourceVersion = obj.resourceVersion
      · simp [h1, h2, h3] at h
      · simp [h3]

end Isolation

/-! ## The reference store -/

section Store

theorem faultyClient_noFaults : faultyClient noFaults = storeClient := rfl

theorem hasKey_iff (apiVersion kind : String) (key : NamespacedName) (u : Unstructured) :
    u.hasKey apiVersion kind key = true ↔
      u.apiVersion = apiVersion ∧ u.kind = kind ∧ u.Namespace = key.Namespace ∧
        u.name = key.Name := by
  simp [Unstructured.hasKey, and_assoc]

theorem concrete_sameKey (pds : ProjectDevelopmentStream) (t : Unstructured) :
    (concrete pds t).sameKey = stored pds t := rfl

theorem candidate_identity (resource existing : Unstructured) :
    (candidate resource existing).apiVersion = existing.apiVersion ∧
    (candidate resource existing).kind = existing.kind ∧
    (candidate resource existing).name = existing.name ∧
    (candidate resource existing).Namespace = existing.Namespace ∧
    (candidate resource existing).resourceVersion = existing.resourceVersion := by
  cases h : (NestedMap resource.Object "spec").2.1
  · rw [candidate_of_not_ok _ _ h]
    exact ⟨rfl, rfl, rfl, rfl, rfl⟩
  · rw [candidate_of_ok _ _ h]
    exact ⟨rfl, rfl, rfl, rfl, rfl⟩

theorem candidate_sameKey (pds : ProjectDevelopmentStream) (t resource existing : Unstructured)
    (h : stored pds t existing = true) : (candidate resource existing).sameKey = stored pds t := by
  obtain ⟨h1, h2, h3, h4, _⟩ := candidate_identity resource existing
  obtain ⟨e1, e2, e3, e4⟩ := (hasKey_iff _ _ _ _).mp h
  funext u
  simp only [Unstructured.sameKey, stored, ObjectKeyFromObject, Unstructured.GetNamespace,
    Unstructured.GetName, h1, h2, h3, h4, e1, e2]
  simp only [Unstructured.hasKey, e3, e4]

theorem sameButSpec_refl (d : Unstructured) : SameButSpec d d :=
  ⟨rfl, rfl, rfl, rfl, rfl, fun _ _ => rfl⟩

theorem sameButSpec_trans {a b c : Unstructured} (h1 : SameButSpec a b) (h2 : SameButSpec b c) :
    SameButSpec a c := by
  obtain ⟨a1, a2, a3, a4, a5, a6⟩ := h1
  obtain ⟨b1, b2, b3, b4, b5, b6⟩ := h2
  exact ⟨b1.trans a1, b2.trans a2, b3.trans a3, b4.trans a4, b5.trans a5,
    fun k hk => (b6 k hk).trans (a6 k hk)⟩

theorem sameButSpec_candidate (resource existing : Unstructured) :
    SameButSpec existing (candidate resource existing) := by
  cases h : (NestedMap resource.Object "spec").2.1
  · rw [candidate_of_not_ok _ _ h]
    exact sameButSpec_refl existing
  · rw [candidate_of_ok _ _ h]
    exact ⟨rfl, rfl, rfl, rfl, rfl, fun k hk => Fields.lookup_set_ne "spec" k _ hk _⟩

theorem preserved_refl : ∀ l : List Unstructured, Preserved l l
  | [] => Preserved.nil []
  | d :: l => Preserved.cons (sameButSpec_refl d) (preserved_refl l)

theorem preserved_append : ∀ l added : List Unstructured, Preserved l (l ++ added)
  | [], _ => Preserved.nil _
  | d :: l, added => Preserved.cons (sameButSpec_refl d) (preserved_append l added)

theorem preserved_trans {a b : List Unstructured} (h1 : Preserved a b) :
    ∀ {c : List Unstructured}, Preserved b c → Preserved a c := by
  induction h1 with
  | nil added =>
    intro c _
    exact Preserved.nil c
  | cons hd _ ih =>
    intro c h2
    cases h2 with
    | cons hd2 htl2 => exact Preserved.cons (sameButSpec_trans hd hd2) (ih htl2)

theorem preserved_replaceFirst (p : Unstructured → Bool) (new : Unstructured) :
    ∀ (l : List Unstructured) (cur : Unstructured), l.find? p = some cur → SameButSpec cur new →
      Preserved l (replaceFirst p new l)
  | [], _, h, _ => by simp at h
  | x :: xs, cur, h, hs => by
    by_cases hp : p x = true
    · simp [List.find?, hp] at h
      subst h
      simp only [replaceFirst, hp, if_true]
      exact Preserved.cons hs (preserved_refl xs)
    · simp [List.find?, hp] at h
      simp only [replaceFirst, hp]
      exact Preserved.cons (sameButSpec_refl x) (preserved_replaceFirst p new xs cur h hs)

theorem preserved_forall₂ {l l' : List Unstructured} (h : Preserved l l') :
    l.length ≤ l'.length ∧ List.Forall₂ SameButSpec l (l'.take l.length) := by
  induction h with
  | nil added => simp
  | cons hd _ ih =>
    refine ⟨by simpa using ih.1, ?_⟩
    simp only [List.length_cons, List.take_succ_cons]
    exact List.Forall₂.cons hd ih.2

theorem faultyClient_get_ok (f : Faults) (apiVersion kind : String) (key : NamespacedName)
    (s s1 : Cluster) (e : Unstructured)
    (h : (faultyClient f).Get apiVersion kind key s = (Except.ok e, s1)) :
    s1 = s ∧ s.objects.find? (Unstructured.hasKey apiVersion kind key) = some e := by
  simp only [faultyClient, storeClient] at h
  cases h1 : f.get key.Name with
  | some err => simp [h1] at h
  | none =>
    cases h2 : List.find? (Unstructured.hasKey apiVersion kind key) s.objects with
    | none => simp [h1, h2] at h
    | some u =>
      simp [h1, h2] at h
      exact ⟨h.2.symm, by rw [h.1]⟩

theorem faultyClient_create_ok (f : Faults) (obj : Unstructured) (s s2 : Cluster)
    (h : (faultyClient f).Create obj s = (none, s2)) :
    s2 = { s with objects := s.objects ++ [obj] } := by
  simp only [faultyClient, storeClient] at h
  cases h1 : f.create obj.name with
  | some err => simp [h1] at h
  | none =>
    cases h2 : List.find? obj.sameKey s.objects with
    | some u => simp [h1, h2] at h
    | none =>
      simp [h1, h2] at h
      exact h.symm

theorem faultyClient_update_ok (f : Faults) (obj : Unstructured) (s s2 : Cluster)
    (h : (faultyClient f).Update obj s = (none, s2)) :
    s2 = { s with objects := replaceFirst obj.sameKey obj s.objects } := by
  simp only [faultyClient, storeClient] at h
  cases h1 : f.update obj.name with
  | some err => simp [h1] at h
  | none =>
    cases h2 : List.find? obj.sameKey s.objects with
    | none => simp [h1, h2] at h
    | some u =>
      by_cases h3 : u.resourceVersion = obj.resourceVersion
      · simp [h1, h2, h3] at h
        exact h.symm
      · simp [h1, h2, h3] at h

/-- One iteration on the reference store, with or without forced failures, keeps the owners
and every stored document, the latter changed in `spec` at most. -/
theorem faulty_itemStep_preserved (f : Faults) (log : Logger) (pds : ProjectDevelopmentStream)
    (t : Unstructured) (s : Cluster) :
    (itemStep (faultyClient f) log pds t s).cluster.streams = s.streams ∧
    Preserved s.objects (itemStep (faultyClient f) log pds t s).cluster.objects := by
  have hfetch : ∀ r s1, fetch (faultyClient f) pds t s = (r, s1) → s1 = s := by
    intro r s1 h
    have := faultyClient_get f t.apiVersion t.kind ⟨pds.Namespace, t.name⟩ s
    unfold fetch at h
    rw [h] at this
    exact this
  rcases itemStep_cases (faultyClient f) log pds t s with
    ⟨err, s1, hf, _, h⟩ | ⟨err, s1, cerr, s2, hf, _, hc, h⟩ |
    ⟨err, s1, s2, hf, _, hc, h⟩ | ⟨ex, s1, hf, _, h⟩ | ⟨ex, s1, uerr, s2, hf, _, hu, h⟩ |
    ⟨ex, s1, s2, hf, _, hu, h⟩
  · rw [h, hfetch _ _ hf]
    exact ⟨rfl, preserved_refl _⟩
  · have h1 := hfetch _ _ hf
    subst h1
    have h2 := faultyClient_create f (concrete pds t) s1 cerr (by rw [hc])
    rw [hc] at h2
    simp only at h2
    rw [h, h2]
    exact ⟨rfl, preserved_refl _⟩
  · have h1 := hfetch _ _ hf
    subst h1
    rw [h, faultyClient_create_ok f _ _ _ hc]
    exact ⟨rfl, preserved_append _ _⟩
  · rw [h, hfetch _ _ hf]
    exact ⟨rfl, preserved_refl _⟩
  · have h1 := hfetch _ _ hf
    subst h1
    have h2 := faultyClient_update f (candidate (concrete pds t) ex) s1 uerr (by rw [hu])
    rw [hu] at h2
    simp only at h2
    rw [h, h2]
    exact ⟨rfl, preserved_refl _⟩
  · obtain ⟨h1, hfind⟩ := faultyClient_get_ok f _ _ _ _ _ _ hf
    subst h1
    have hst : stored pds t ex = true := List.find?_some hfind
    rw [h, faultyClient_update_ok f _ _ _ hu]
    refine ⟨rfl, ?_⟩
    simp only
    rw [candidate_sameKey pds t _ ex hst]
    exact preserved_replaceFirst _ _ _ ex hfind (sameButSpec_candidate _ _)

theorem faulty_pass_preserved (f : Faults) (log : Logger) (pds : ProjectDevelopmentStream)
    (ts : List Unstructured) :
    ∀ s : Cluster, (pass (faultyClient f) log pds ts s).cluster.streams = s.streams ∧
      Preserved s.objects (pass (faultyClient f) log pds ts s).cluster.objects := by
  induction ts with
  | nil =>
    intro s
    exact ⟨rfl, preserved_refl _⟩
  | cons t ts ih =>
    intro s
    rw [pass_cons_eq]
    obtain ⟨h1, h2⟩ := faulty_itemStep_preserved f log pds t s
    obtain ⟨h3, h4⟩ := ih (itemStep (faultyClient f) log pds t s).cluster
    exact ⟨h3.trans h1, preserved_trans h2 h4⟩

theorem faulty_getPDS_cluster (f : Faults) (req : NamespacedName) (s : Cluster) :
    ((faultyClient f).GetPDS req s).2 = s := by
  simp only [faultyClient, storeClient]
  split
  · rfl
  · split <;> rfl

theorem faulty_Reconcile_preserved (f : Faults) (req : NamespacedName) (s : Cluster) :
    (Reconcile (faultyClient f) req s).cluster.streams = s.streams ∧
    Preserved s.objects (Reconcile (faultyClient f) req s).cluster.objects := by
  have hs := faulty_getPDS_cluster f req s
  rcases h : (faultyClient f).GetPDS req s with ⟨err | pds, s1⟩
  · rw [h] at hs
    simp only at hs
    subst hs
    rw [Reconcile_of_error _ req _ _ err h]
    exact ⟨rfl, preserved_refl _⟩
  · rw [h] at hs
    simp only at hs
    subst hs
    rw [Reconcile_of_ok _ req _ _ pds h]
    exact faulty_pass_preserved f _ pds pds.Resources _

theorem preserved_mem {l l' : List Unstructured} (h : Preserved l l') :
    ∀ d ∈ l, ∃ d' ∈ l', SameButSpec d d' := by
  induction h with
  | nil added =>
    intro d hd
    cases hd
  | cons hd _ ih =>
    intro d hmem
    rcases List.mem_cons.mp hmem with rfl | hmem
    · exact ⟨_, List.mem_cons_self _ _, hd⟩
    · obtain ⟨d', hd', hs⟩ := ih d hmem
      exact ⟨d', List.mem_cons_of_mem _ hd', hs⟩

end Store

/-! ## Lists, candidates and the laws of the reference store -/

section Idempotence

theorem find?_append_new {α : Type} (p : α → Bool) (x : α) :
    ∀ l : List α, l.find? p = none → p x = true → (l ++ [x]).find? p = some x
  | [], _, hx => by simp [List.find?, hx]
  | y :: ys, h, hx => by
    by_cases hy : p y = true
    · simp [List.find?, hy] at h
    · simp [List.find?, hy] at h
      simp only [List.cons_append, List.find?, hy]
      exact find?_append_new p x ys (by simpa using h) hx

theorem find?_replaceFirst_self {α : Type} (p : α → Bool) (new : α) (hnew : p new = true) :
    ∀ (l : List α) (cur : α), l.find? p = some cur → (replaceFirst p new l).find? p = some new
  | [], _, h => by simp at h
  | y :: ys, cur, h => by
    by_cases hy : p y = true
    · simp [replaceFirst, hy, List.find?, hnew]
    · simp only [List.find?, hy] at h
      simp only [replaceFirst, hy, List.find?]
      exact find?_replaceFirst_self p new hnew ys cur h

theorem find?_replaceFirst_disjoint {α : Type} (p q : α → Bool) (new : α)
    (hpq : ∀ x, p x = true → q x = false) (hnew : q new = false) :
    ∀ l : List α, (replaceFirst p new l).find? q = l.find? q
  | [] => rfl
  | y :: ys => by
    by_cases hy : p y = true
    · simp [replaceFirst, hy, List.find?, hnew, hpq y hy]
    · by_cases hq : q y = true
      · simp [replaceFirst, hy, List.find?, hq]
      · simp only [replaceFirst, hy, List.find?, hq]
        exact find?_replaceFirst_disjoint p q new hpq hnew ys

theorem candidate_idem (resource existing : Unstructured) :
    candidate resource (candidate resource existing) = candidate resource existing := by
  cases h : (NestedMap resource.Object "spec").2.1
  · rw [candidate_of_not_ok _ _ h, candidate_of_not_ok _ _ h]
  · rw [candidate_of_ok _ _ h, candidate_of_ok _ _ h]
    simp only [Fields.set_set]

theorem candidate_self (resource : Unstructured) : candidate resource resource = resource := by
  cases h : (NestedMap resource.Object "spec").2.1
  · rw [candidate_of_not_ok _ _ h]
  · rw [candidate_of_ok _ _ h]
    have := (nestedMap_ok_iff resource.Object "spec").mp h
    rw [Fields.set_of_lookup _ _ _ this]

theorem candidate_wf (resource existing : Unstructured) (hr : resource.Object.WF = true)
    (he : existing.Object.WF = true) : (candidate resource existing).Object.WF = true := by
  cases h : (NestedMap resource.Object "spec").2.1
  · rw [candidate_of_not_ok _ _ h]
    exact he
  · rw [candidate_of_ok _ _ h]
    have hl := (nestedMap_ok_iff resource.Object "spec").mp h
    have hv := Fields.wf_lookup _ _ _ hr hl
    exact Fields.wf_set _ _ hv _ he

theorem find?_append_false {α : Type} (p : α → Bool) (x : α) (hx : p x = false) :
    ∀ l : List α, (l ++ [x]).find? p = l.find? p
  | [] => by simp [List.find?, hx]
  | y :: ys => by
    by_cases hy : p y = true
    · simp [List.find?, hy]
    · simp only [List.cons_append, List.find?, hy]
      exact find?_append_false p x hx ys

theorem storeClient_eq_listClient : storeClient = listClient Unstructured.hasKey := rfl

theorem hasKey_fullKey (apiVersion kind : String) (nn : NamespacedName) (u : Unstructured) :
    Unstructured.hasKey apiVersion kind nn u = true ↔
      fullKey u.apiVersion u.kind ⟨u.Namespace, u.name⟩ = fullKey apiVersion kind nn := by
  simp [Unstructured.hasKey, fullKey, and_assoc]

theorem hasKindKey_kindKey (apiVersion kind : String) (nn : NamespacedName) (u : Unstructured) :
    hasKindKey apiVersion kind nn u = true ↔
      kindKey u.apiVersion u.kind ⟨u.Namespace, u.name⟩ = kindKey apiVersion kind nn := by
  simp [hasKindKey, kindKey, and_assoc]

/-- The list store of a way `p` of matching documents that is the comparison of a key obeys
the laws of a keyed store. -/
theorem listClient_keyed {K : Type} (p : String → String → NamespacedName → Unstructured → Bool)
    (key : String → String → NamespacedName → K)
    (hp : ∀ apiVersion kind nn u, p apiVersion kind nn u = true ↔
      key u.apiVersion u.kind ⟨u.Namespace, u.name⟩ = key apiVersion kind nn) :
    KeyedStore (listClient p) key := by
  have hsame : ∀ a k n a' k' n', key a k n = key a' k' n' → p a k n = p a' k' n' := by
    intro a k n a' k' n' h
    funext u
    rw [Bool.eq_iff_iff, hp, hp, h]
  have hobj : ∀ obj : Unstructured,
      p obj.apiVersion obj.kind (ObjectKeyFromObject obj) obj = true := by
    intro obj
    rw [hp]
    rfl
  have hne : ∀ a k n (obj : Unstructured),
      key a k n ≠ key obj.apiVersion obj.kind ⟨obj.Namespace, obj.name⟩ →
      (∀ x, p obj.apiVersion obj.kind (ObjectKeyFromObject obj) x = true → p a k n x = false) ∧
      p a k n obj = false := by
    intro a k n obj h
    constructor
    · intro x hx
      cases hx' : p a k n x
      · rfl
      · exfalso
        apply h
        rw [← (hp _ _ _ _).mp hx', (hp _ _ _ _).mp hx]
        rfl
    · cases hx' : p a k n obj
      · rfl
      · exact absurd ((hp _ _ _ _).mp hx').symm h
  have hcreate : ∀ obj s s', (listClient p).Create obj s = (none, s') →
      s.objects.find? (p obj.apiVersion obj.kind (ObjectKeyFromObject obj)) = none ∧
      s' = ⟨s.streams, s.objects ++ [obj]⟩ := by
    intro obj s s' h
    simp only [listClient] at h
    cases hf : s.objects.find? (p obj.apiVersion obj.kind (ObjectKeyFromObject obj)) with
    | some u => simp [hf] at h
    | none =>
      simp [hf] at h
      exact ⟨rfl, h.symm⟩
  have hupdate : ∀ obj s s', (listClient p).Update obj s = (none, s') →
      (∃ cur, s.objects.find? (p obj.apiVersion obj.kind (ObjectKeyFromObject obj)) = some cur) ∧
      s' = ⟨s.streams,
        replaceFirst (p obj.apiVersion obj.kind (ObjectKeyFromObject obj)) obj s.objects⟩ := by
    intro obj s s' h
    simp only [listClient] at h
    cases hf : s.objects.find? (p obj.apiVersion obj.kind (ObjectKeyFromObject obj)) with
    | none => simp [hf] at h
    | some u =>
      by_cases hrv : u.resourceVersion = obj.resourceVersion
      · simp [hf, hrv] at h
        exact ⟨⟨u, rfl⟩, h.symm⟩
      · simp [hf, hrv] at h
  refine ⟨?_, ?_, ?_, ?_, ?_, ?_, ?_, ?_⟩
  · intro req s
    simp only [listClient]
    split <;> rfl
  · intro a k n s
    simp only [listClient]
    split <;> rfl
  · intro a k n a' k' n' s h
    simp only [listClient, hsame a k n a' k' n' h]
  · intro a k n s d h
    simp only [listClient] at h
    cases hf : s.objects.find? (p a k n) with
    | none => simp [hf] at h
    | some u =>
      simp [hf] at h
      subst h
      exact (hp _ _ _ _).mp (List.find?_some hf)
  · intro obj s s' h a k n
    obtain ⟨hnone, rfl⟩ := hcreate obj s s' h
    constructor
    · intro hk
      have hpe : p a k n = p obj.apiVersion obj.kind (ObjectKeyFromObject obj) :=
        hsame _ _ _ _ _ _ hk
      simp only [listClient, hpe, find?_append_new _ _ _ hnone (hobj obj)]
    · intro hk
      simp only [listClient, find?_append_false _ _ (hne a k n obj hk).2]
      cases List.find? (p a k n) s.objects <;> rfl
  · intro obj s s' h a k n
    obtain ⟨⟨cur, hcur⟩, rfl⟩ := hupdate obj s s' h
    constructor
    · intro hk
      have hpe : p a k n = p obj.apiVersion obj.kind (ObjectKeyFromObject obj) :=
        hsame _ _ _ _ _ _ hk
      simp only [listClient, hpe, find?_replaceFirst_self _ _ (hobj obj) _ cur hcur]
    · intro hk
      simp only [listClient,
        find?_replaceFirst_disjoint _ (p a k n) obj (hne a k n obj hk).1 (hne a k n obj hk).2]
      cases List.find? (p a k n) s.objects <;> rfl
  · intro obj s s' h req
    obtain ⟨_, rfl⟩ := hcreate obj s s' h
    simp only [listClient]
    split <;> rfl
  · intro obj s s' h req
    obtain ⟨_, rfl⟩ := hupdate obj s s' h
    simp only [listClient]
    split <;> rfl

theorem storeClient_keyed : KeyedStore storeClient fullKey := by
  rw [storeClient_eq_listClient]
  exact listClient_keyed _ _ hasKey_fullKey

theorem kindStore_keyed : KeyedStore (listClient hasKindKey) kindKey :=
  listClient_keyed _ _ hasKindKey_kindKey

end Idempotence

/-! ## A pass on a keyed store settles its templates -/

section Keyed

variable {σ K : Type}

theorem fetch_of_keyed (c : Client σ) (key : String → String → NamespacedName → K)
    (hs : KeyedStore c key) (pds : ProjectDevelopmentStream) (t : Unstructured) (s s1 : σ)
    (r : Except Err Unstructured) (h : fetch c pds t s = (r, s1)) :
    s1 = s ∧ (fetch c pds t s).1 = r := by
  have h1 := hs.get_state t.apiVersion t.kind ⟨pds.Namespace, t.name⟩ s
  unfold fetch at h
  unfold fetch
  rw [h] at h1 ⊢
  exact ⟨h1, rfl⟩

theorem fetch_same_key (c : Client σ) (key : String → String → NamespacedName → K)
    (hs : KeyedStore c key) (pds : ProjectDevelopmentStream) (t r : Unstructured) (s : σ)
    (h : key t.apiVersion t.kind ⟨pds.Namespace, t.name⟩ =
      key r.apiVersion r.kind ⟨pds.Namespace, r.name⟩) :
    (fetch c pds t s).1 = (fetch c pds r s).1 :=
  hs.get_key _ _ _ _ _ _ s h

/-- One iteration that does not fail, on a keyed store with well-formed content: its
template is settled afterwards, the content stays well formed, every template that was
settled and agrees with it stays settled, and the owners are as before. -/
theorem keyed_itemStep (c : Client σ) (key : String → String → NamespacedName → K)
    (hs : KeyedStore c key) (log : Logger) (pds : ProjectDevelopmentStream) (t' : Unstructured)
    (s : σ) (hwf : StoreWF c s) (ht' : t'.Object.WF = true) (o : Outcome)
    (ho : (itemStep c log pds t' s).outcomes = [o]) (hok : o.isFailure = false) :
    SettledAt c pds (itemStep c log pds t' s).cluster t' ∧
    StoreWF c (itemStep c log pds t' s).cluster ∧
    (∀ t, t.Object.WF = true → Agree key pds t' t → SettledAt c pds s t →
      SettledAt c pds (itemStep c log pds t' s).cluster t) ∧
    (∀ req, (c.GetPDS req (itemStep c log pds t' s).cluster).1 = (c.GetPDS req s).1) := by
  have hct : (concrete pds t').Object.WF = true := ht'
  rcases itemStep_cases c log pds t' s with ⟨err, s1, _, _, h⟩ | ⟨err, s1, cerr, s2, _, _, _, h⟩ |
    ⟨err, s1, s2, hf, _, hc, h⟩ | ⟨ex, s1, hf, hd, h⟩ | ⟨ex, s1, uerr, s2, _, _, _, h⟩ |
    ⟨ex, s1, s2, hf, hd, hu, h⟩
  · rw [h] at ho
    simp at ho
    subst ho
    cases hok
  · rw [h] at ho
    simp at ho
    subst ho
    cases hok
  · -- created
    obtain ⟨rfl, hf1⟩ := fetch_of_keyed c key hs pds t' s s1 _ hf
    have law := hs.create_get _ _ _ hc
    rw [h]
    refine ⟨?_, ?_, ?_, hs.create_owner _ _ _ hc⟩
    · refine ⟨concrete pds t', (law t'.apiVersion t'.kind ⟨pds.Namespace, t'.name⟩).1 rfl, ?_⟩
      rw [candidate_self]
      exact deepEqual_refl _ hct
    · intro a k n d hd
      by_cases hk : key a k n = key (concrete pds t').apiVersion (concrete pds t').kind
          ⟨(concrete pds t').Namespace, (concrete pds t').name⟩
      · rw [(law a k n).1 hk] at hd
        injection hd with hd
        subst hd
        exact hct
      · rw [(law a k n).2 hk] at hd
        exact hwf a k n d hd
    · rintro t _ _ ⟨d, hd, hdd⟩
      by_cases hk : key t.apiVersion t.kind ⟨pds.Namespace, t.name⟩ =
          key t'.apiVersion t'.kind ⟨pds.Namespace, t'.name⟩
      · rw [fetch_same_key c key hs pds t t' s1 hk, hf1] at hd
        cases hd
      · exact ⟨d, ((law t.apiVersion t.kind ⟨pds.Namespace, t.name⟩).2 hk).trans hd, hdd⟩
  · -- unchanged
    obtain ⟨rfl, hf1⟩ := fetch_of_keyed c key hs pds t' s s1 _ hf
    rw [h]
    exact ⟨⟨ex, hf1, hd⟩, hwf, fun _ _ _ hset => hset, fun _ => rfl⟩
  · rw [h] at ho
    simp at ho
    subst ho
    cases huc : IsConflict uerr <;> simp [huc, Outcome.isFailure] at hok
  · -- updated
    obtain ⟨rfl, hf1⟩ := fetch_of_keyed c key hs pds t' s s1 _ hf
    have law := hs.update_get _ _ _ hu
    have hwex : ex.Object.WF = true := hwf _ _ _ ex hf1
    have hwc : (candidate (concrete pds t') ex).Object.WF = true :=
      candidate_wf _ _ hct hwex
    obtain ⟨i1, i2, i3, i4, _⟩ := candidate_identity (concrete pds t') ex
    have hkey : key t'.apiVersion t'.kind ⟨pds.Namespace, t'.name⟩ =
        key (candidate (concrete pds t') ex).apiVersion (candidate (concrete pds t') ex).kind
          ⟨(candidate (concrete pds t') ex).Namespace, (candidate (concrete pds t') ex).name⟩ := by
      rw [i1, i2, i3, i4]
      exact (hs.get_ok _ _ _ _ _ hf1).symm
    rw [h]
    refine ⟨?_, ?_, ?_, hs.update_owner _ _ _ hu⟩
    · refine ⟨candidate (concrete pds t') ex,
        (law t'.apiVersion t'.kind ⟨pds.Namespace, t'.name⟩).1 hkey, ?_⟩
      rw [candidate_idem]
      exact deepEqual_refl _ hwc
    · intro a k n d hd'
      by_cases hk : key a k n =
          key (candidate (concrete pds t') ex).apiVersion (candidate (concrete pds t') ex).kind
            ⟨(candidate (concrete pds t') ex).Namespace, (candidate (concrete pds t') ex).name⟩
      · rw [(law a k n).1 hk] at hd'
        injection hd' with hd'
        subst hd'
        exact hwc
      · rw [(law a k n).2 hk] at hd'
        exact hwf a k n d hd'
    · rintro t htw hag ⟨d, hd', hdd⟩
      by_cases hk : key t.apiVersion t.kind ⟨pds.Namespace, t.name⟩ =
          key t'.apiVersion t'.kind ⟨pds.Namespace, t'.name⟩
      · refine ⟨candidate (concrete pds t') ex,
          (law t.apiVersion t.kind ⟨pds.Namespace, t.name⟩).1 (hk.trans hkey), ?_⟩
        have hrt : (concrete pds t).Object = t.Object := rfl
        have hrt' : (concrete pds t').Object = t'.Object := rfl
        cases hnt : (NestedMap t.Object "spec").2.1
        · rw [candidate_of_not_ok (concrete pds t) _ (by rw [hrt]; exact hnt)]
          exact deepEqual_refl _ hwc
        · cases hnt' : (NestedMap t'.Object "spec").2.1
          · rw [candidate_of_not_ok (concrete pds t') ex (by rw [hrt']; exact hnt')] at hd
            rw [deepEqual_refl _ hwex] at hd
            cases hd
          · have hl := (nestedMap_ok_iff t.Object "spec").mp hnt
            have hl' := (nestedMap_ok_iff t'.Object "spec").mp hnt'
            rw [candidate_of_ok (concrete pds t) _ (by rw [hrt]; exact hnt),
              candidate_of_ok (concrete pds t') ex (by rw [hrt']; exact hnt')]
            simp only [hrt, hrt', Fields.set_set_key]
            exact deepEqual_set_congr _ _ _ _ hwex (Fields.wf_lookup _ _ _ ht' hl')
              (hag hk.symm _ _ hl' hl)
      · exact ⟨d, ((law t.apiVersion t.kind ⟨pds.Namespace, t.name⟩).2
          (fun e => hk (e.trans hkey.symm))).trans hd', hdd⟩

/-- A pass without a failed item settles every template of a family that agrees pairwise, and
keeps settled the templates of the family that were. -/
theorem keyed_pass (c : Client σ) (key : String → String → NamespacedName → K)
    (hs : KeyedStore c key) (log : Logger) (pds : ProjectDevelopmentStream)
    (all : List Unstructured) (hall : ∀ t ∈ all, t.Object.WF = true)
    (hag : ∀ t ∈ all, ∀ r ∈ all, Agree key pds t r) (ts : List Unstructured) :
    ∀ (done : List Unstructured) (s : σ), (∀ t ∈ ts, t ∈ all) → (∀ t ∈ done, t ∈ all) →
      StoreWF c s → (∀ t ∈ done, SettledAt c pds s t) →
      (∀ o ∈ (pass c log pds ts s).outcomes, o.isFailure = false) →
      (∀ t ∈ done, SettledAt c pds (pass c log pds ts s).cluster t) ∧
      (∀ t ∈ ts, SettledAt c pds (pass c log pds ts s).cluster t) ∧
      (∀ req, (c.GetPDS req (pass c log pds ts s).cluster).1 = (c.GetPDS req s).1) := by
  induction ts with
  | nil =>
    intro done s _ _ _ hset _
    exact ⟨hset, fun t ht => (by cases ht), fun _ => rfl⟩
  | cons t ts ih =>
    intro done s hts hdone hwf hset hacc
    rw [pass_cons_eq] at hacc ⊢
    simp only at hacc ⊢
    obtain ⟨o, ho⟩ : ∃ o, (itemStep c log pds t s).outcomes = [o] := by
      have hl := itemStep_outcomes_length c log pds t s
      match hm : (itemStep c log pds t s).outcomes, hl with
      | [o], _ => exact ⟨o, rfl⟩
    have hok : o.isFailure = false :=
      hacc o (List.mem_append_left _ (by rw [ho]; exact List.mem_singleton_self o))
    have htall : t ∈ all := hts t (List.mem_cons_self _ _)
    obtain ⟨ha, hb, hc, hd⟩ := keyed_itemStep c key hs log pds t s hwf (hall t htall) o ho hok
    obtain ⟨i1, i2, i3⟩ := ih (t :: done) (itemStep c log pds t s).cluster
      (fun r hr => hts r (List.mem_cons_of_mem _ hr))
      (fun r hr => by
        rcases List.mem_cons.mp hr with rfl | hr
        · exact htall
        · exact hdone r hr)
      hb
      (fun r hr => by
        rcases List.mem_cons.mp hr with rfl | hr
        · exact ha
        · exact hc r (hall r (hdone r hr)) (hag t htall r (hdone r hr)) (hset r hr))
      (fun o' ho' => hacc o' (List.mem_append_right _ ho'))
    refine ⟨fun r hr => i1 r (List.mem_cons_of_mem _ hr), ?_, fun req => (i3 req).trans (hd req)⟩
    intro r hr
    rcases List.mem_cons.mp hr with rfl | hr
    · exact i1 r (List.mem_cons_self _ _)
    · exact i2 r hr

/-- A pass over settled templates only reads: it ends `Unchanged` throughout, issues no
create and no update, and leaves the store in the state it found. -/
theorem pass_of_settled (c : Client σ)
    (hget : ∀ apiVersion kind nn s, (c.Get apiVersion kind nn s).2 = s) (log : Logger)
    (pds : ProjectDevelopmentStream) (ts : List Unstructured) (s : σ)
    (h : ∀ t ∈ ts, SettledAt c pds s t) :
    (pass c log pds ts s).cluster = s ∧
    (pass c log pds ts s).outcomes = List.replicate ts.length Outcome.Unchanged ∧
    (pass c log pds ts s).events.filter Event.isCreate = [] ∧
    (pass c log pds ts s).events.filter Event.isUpdate = [] := by
  induction ts with
  | nil => exact ⟨rfl, rfl, rfl, rfl⟩
  | cons t ts ih =>
    obtain ⟨d, hfd, hdd⟩ := h t (List.mem_cons_self _ _)
    have hstate : ∀ r s1, fetch c pds t s = (r, s1) → s1 = s ∧ r = Except.ok d := by
      intro r s1 hf
      have h1 := hget t.apiVersion t.kind ⟨pds.Namespace, t.name⟩ s
      unfold fetch at hf hfd
      rw [hf] at h1 hfd
      exact ⟨h1, hfd⟩
    have hstep : (itemStep c log pds t s).cluster = s ∧
        (itemStep c log pds t s).outcomes = [Outcome.Unchanged] ∧
        (itemStep c log pds t s).events.filter Event.isCreate = [] ∧
        (itemStep c log pds t s).events.filter Event.isUpdate = [] := by
      rcases itemStep_cases c log pds t s with ⟨err, s1, hf, _, _⟩ |
        ⟨err, s1, cerr, s2, hf, _, _, _⟩ | ⟨err, s1, s2, hf, _, _, _⟩ | ⟨ex, s1, hf, _, h1⟩ |
        ⟨ex, s1, uerr, s2, hf, hd, _, _⟩ | ⟨ex, s1, s2, hf, hd, _, _⟩
      · cases (hstate _ _ hf).2
      · cases (hstate _ _ hf).2
      · cases (hstate _ _ hf).2
      · obtain ⟨rfl, _⟩ := hstate _ _ hf
        rw [h1]
        simp [List.filter_append, preamble_filter_isCreate, preamble_filter_isUpdate, fetched,
          Event.isCreate, Event.isUpdate]
      · obtain ⟨_, he⟩ := hstate _ _ hf
        injection he with he
        subst he
        rw [hdd] at hd
        cases hd
      · obtain ⟨_, he⟩ := hstate _ _ hf
        injection he with he
        subst he
        rw [hdd] at hd
        cases hd
    obtain ⟨h1, h2, h3, h4⟩ := hstep
    obtain ⟨i1, i2, i3, i4⟩ := ih (fun r hr => h r (List.mem_cons_of_mem _ hr))
    rw [pass_cons_eq, h1]
    refine ⟨i1, ?_, ?_, ?_⟩
    · simp only [h2, i2, List.length_cons, List.replicate_succ]
      rfl
    · simp only [List.filter_append, h3, i3, List.append_nil]
    · simp only [List.filter_append, h4, i4, List.append_nil]

theorem agree_of_key_ne (key : String → String → NamespacedName → K)
    (pds : ProjectDevelopmentStream) (t r : Unstructured)
    (h : key t.apiVersion t.kind ⟨pds.Namespace, t.name⟩ ≠
      key r.apiVersion r.kind ⟨pds.Namespace, r.name⟩) : Agree key pds t r :=
  fun hk => absurd hk h

theorem agree_of_spec_eq (key : String → String → NamespacedName → K)
    (pds : ProjectDevelopmentStream) (t r : Unstructured) (ht : t.Object.WF = true)
    (h : t.Object.lookup "spec" = r.Object.lookup "spec") : Agree key pds t r := by
  intro _ m m' hm hm'
  rw [h, hm'] at hm
  injection hm with hm
  rw [← hm]
  exact Value.valueDeepEqual_refl _ (Fields.wf_lookup _ _ _ ht (h.trans hm'))

theorem listClient_storeWF (p : String → String → NamespacedName → Unstructured → Bool)
    (s : Cluster) (h : ∀ d ∈ s.objects, d.Object.WF = true) : StoreWF (listClient p) s := by
  intro a k n d hd
  simp only [listClient] at hd
  cases hf : s.objects.find? (p a k n) with
  | none => simp [hf] at hd
  | some u =>
    simp [hf] at hd
    subst hd
    exact h u (List.mem_of_find?_eq_some hf)

end Keyed

/-! ## The result of `Reconcile` -/

section Claims

variable {σ : Type}

/-- C1: the result of `Reconcile` has `Requeue = true` if and only if the trace of the pass
holds a store update call that failed with a conflict error.  Failed reads, failed creates
and updates failing otherwise leave `Requeue` false; one conflicting update sets it whatever
the other items did. -/
theorem Reconcile_requeue_iff_conflict (c : Client σ) (req : NamespacedName) (s : σ) :
    (Reconcile c req s).result.Requeue = true ↔
      ∃ obj err, Event.Update obj (some err) ∈ (Reconcile c req s).events ∧
        IsConflict err = true := by
  rcases h : c.GetPDS req s with ⟨err | pds, s1⟩
  · rw [Reconcile_of_error c req s s1 err h]
    simp
  · rw [Reconcile_of_ok c req s s1 pds h]
    have hp := pass_requeue_iff c (passLogger pds) pds pds.Resources s1
    unfold HasConflict at hp
    by_cases hr : (pass c (passLogger pds) pds pds.Resources s1).ctrlResult.Requeue = true
    · simp only [hr, if_true, true_iff]
      obtain ⟨obj, err, hmem, hc⟩ := hp.mp hr
      exact ⟨obj, err, List.mem_append_right _ hmem, hc⟩
    · simp only [hr, if_false, false_iff, Bool.false_eq_true]
      rintro ⟨obj, err, hmem, hc⟩
      apply hr
      apply hp.mpr
      rcases List.mem_append.mp hmem with h1 | h1
      · simp at h1
      · exact ⟨obj, err, h1, hc⟩

/-- C2: `Reconcile` returns an error exactly when the read of the owner failed with an error
other than not-found, and then returns that error.  When the owner is not found the result is
`Requeue = false` with no error and the trace holds no create and no update call; when the
owner was read the returned error is nil. -/
theorem Reconcile_error_iff_owner_read_failed (c : Client σ) (req : NamespacedName) (s : σ) :
    (∀ e, (Reconcile c req s).err = some e ↔
      ((c.GetPDS req s).1 = Except.error e ∧ IsNotFound e = false)) ∧
    (∀ e, (c.GetPDS req s).1 = Except.error e → IsNotFound e = true →
      (Reconcile c req s).result.Requeue = false ∧ (Reconcile c req s).err = none ∧
      (Reconcile c req s).events.filter Event.isCreate = [] ∧
      (Reconcile c req s).events.filter Event.isUpdate = []) ∧
    (∀ pds, (c.GetPDS req s).1 = Except.ok pds → (Reconcile c req s).err = none) := by
  rcases h : c.GetPDS req s with ⟨err | pds, s1⟩
  · rw [Reconcile_of_error c req s s1 err h]
    refine ⟨?_, ?_, ?_⟩
    · intro e
      cases hnf : IsNotFound err
      · constructor
        · intro he
          simp [IgnoreNotFound, hnf] at he
          subst he
          exact ⟨rfl, hnf⟩
        · rintro ⟨he, _⟩
          simp at he
          subst he
          simp [IgnoreNotFound, hnf]
      · constructor
        · intro he
          simp [IgnoreNotFound, hnf] at he
        · rintro ⟨he, hne⟩
          simp at he
          subst he
          rw [hnf] at hne
          cases hne
    · intro e he hnf
      simp at he
      subst he
      simp [IgnoreNotFound, hnf, Event.isCreate, Event.isUpdate]
    · intro pds hp
      simp at hp
  · rw [Reconcile_of_ok c req s s1 pds h]
    refine ⟨?_, ?_, ?_⟩
    · intro e
      simp
    · intro e he
      simp at he
    · intro _ _
      rfl

/-- A witness of C1: the update of `Foo/bar` is forced to fail with a conflict; the pass
requests a requeue and its trace holds the conflicting update. -/
theorem Reconcile_requeue_iff_conflict_witness :
    (Reconcile (faultyClient (failUpdate "bar" errConflict)) streamReq
      (clusterOf [fooBar 2] [storedFooBar 1])).result.Requeue = true ∧
    (Reconcile (faultyClient (failUpdate "bar" errUnavailable)) streamReq
      (clusterOf [fooBar 2] [storedFooBar 1])).result.Requeue = false ∧
    ∃ obj err, Event.Update obj (some err) ∈
      (Reconcile (faultyClient (failUpdate "bar" errConflict)) streamReq
        (clusterOf [fooBar 2] [storedFooBar 1])).events ∧ IsConflict err = true :=
  ⟨by decide, by decide,
    (Reconcile_requeue_iff_conflict (faultyClient (failUpdate "bar" errConflict)) streamReq
      (clusterOf [fooBar 2] [storedFooBar 1])).mp (by decide)⟩

/-- A witness of C2: a store that cannot be reached makes `Reconcile` return that error; an
owner that is not found makes it return no error and no requeue. -/
theorem Reconcile_error_iff_owner_read_failed_witness :
    (Reconcile (faultyClient (failOwner errUnavailable)) streamReq
      (clusterOf [fooBar 1] [])).err = some errUnavailable ∧
    (Reconcile storeClient streamReq { streams := [], objects := [storedFooBar 1] }).err = none ∧
    (Reconcile storeClient streamReq
      { streams := [], objects := [storedFooBar 1] }).result.Requeue = false :=
  ⟨((Reconcile_error_iff_owner_read_failed (faultyClient (failOwner errUnavailable)) streamReq
      (clusterOf [fooBar 1] [])).1 errUnavailable).mpr ⟨rfl, rfl⟩,
    ((Reconcile_error_iff_owner_read_failed storeClient streamReq
      { streams := [], objects := [storedFooBar 1] }).2.1 errNotFound rfl rfl).2.1,
    by decide⟩

end Claims

/-! ## One iteration: the documents it reads and writes -/

section ItemClaims

variable {σ : Type}

/-- C4: every document an iteration submits to the store update is the fetched existing
document in all but `spec`: identity, version token and every field other than `spec` are
those of the fetched document.  Its `spec` is the mapping the concrete item holds under
`spec` when it holds one (`NestedMap` reports the sub-tree), and the existing `spec`
otherwise, in particular when the item has no `spec` field. -/
theorem update_submits_existing_with_spec_replaced (c : Client σ) (log : Logger)
    (pds : ProjectDevelopmentStream) (t : Unstructured) (s : σ) (obj : Unstructured)
    (res : Option Err) (h : Event.Update obj res ∈ (itemStep c log pds t s).events) :
    ∃ existing s1, fetch c pds t s = (Except.ok existing, s1) ∧
      obj.apiVersion = existing.apiVersion ∧ obj.kind = existing.kind ∧
      obj.name = existing.name ∧ obj.Namespace = existing.Namespace ∧
      obj.resourceVersion = existing.resourceVersion ∧
      (∀ k, k ≠ "spec" → obj.Object.lookup k = existing.Object.lookup k) ∧
      (∀ m, t.Object.lookup "spec" = some (Value.map m) →
        obj.Object.lookup "spec" = some (Value.map m)) ∧
      (t.Object.lookup "spec" = none →
        obj.Object.lookup "spec" = existing.Object.lookup "spec") ∧
      ((NestedMap t.Object "spec").2.1 = false → obj = existing) := by
  obtain ⟨existing, s1, hf, hobj, _, _⟩ := itemStep_update_mem c log pds t s obj res h
  refine ⟨existing, s1, hf, ?_⟩
  have hres : (concrete pds t).Object = t.Object := rfl
  cases hok : (NestedMap t.Object "spec").2.1
  · have hc : obj = existing := by
      rw [hobj]
      exact candidate_of_not_ok _ _ (by rw [hres]; exact hok)
    subst hc
    refine ⟨rfl, rfl, rfl, rfl, rfl, fun _ _ => rfl, ?_, fun _ => rfl, fun _ => rfl⟩
    intro m hm
    rw [nestedMap_of_map _ _ _ hm] at hok
    simp at hok
  · have hc : obj = { existing with
        Object := existing.Object.set "spec" (Value.map (NestedMap t.Object "spec").1) } := by
      rw [hobj]
      exact candidate_of_ok _ _ (by rw [hres]; exact hok)
    subst hc
    refine ⟨rfl, rfl, rfl, rfl, rfl, ?_, ?_, ?_, ?_⟩
    · intro k hk
      exact Fields.lookup_set_ne "spec" k _ hk _
    · intro m hm
      rw [nestedMap_of_map _ _ _ hm]
      exact Fields.lookup_set_self "spec" _ _
    · intro hnone
      rw [nestedMap_of_none _ _ hnone] at hok
      simp at hok
    · intro hfalse
      cases hfalse

/-- A witness of C4: the template `Foo/bar` with `spec.x = 2` against a stored `Foo/bar` with
`spec.x = 1` and a `status`; the update submitted carries the stored status and version token. -/
theorem update_submits_existing_with_spec_replaced_witness :
    Event.Update (storedFooBar 2) none ∈
      (itemStep storeClient [] (streamOf [fooBar 2]) (fooBar 2)
        (clusterOf [fooBar 2] [storedFooBar 1])).events ∧
    (storedFooBar 2).resourceVersion = (storedFooBar 1).resourceVersion ∧
    (storedFooBar 2).Object.lookup "status" = (storedFooBar 1).Object.lookup "status" ∧
    (storedFooBar 2).Object.lookup "spec" =
      some (Value.map (Fields.cons "x" (Value.num 2) Fields.nil)) := by
  have hmem : Event.Update (storedFooBar 2) none ∈
      (itemStep storeClient [] (streamOf [fooBar 2]) (fooBar 2)
        (clusterOf [fooBar 2] [storedFooBar 1])).events := by
    have he : (itemStep storeClient [] (streamOf [fooBar 2]) (fooBar 2)
        (clusterOf [fooBar 2] [storedFooBar 1])).events =
        [Event.Info (itemLogger [] (fooBar 2)) "Creating/Updating resource" [],
          fetched (streamOf [fooBar 2]) (fooBar 2) (Except.ok (storedFooBar 1)),
          Event.Update (storedFooBar 2) none,
          Event.Info (itemLogger [] (fooBar 2)) "Resource updated" []] := by rfl
    rw [he]
    simp
  obtain ⟨existing, s1, hf, _, _, _, _, hrv, hrest, hspec, _, _⟩ :=
    update_submits_existing_with_spec_replaced storeClient []
      (streamOf [fooBar 2]) (fooBar 2) (clusterOf [fooBar 2] [storedFooBar 1]) _ _ hmem
  have hfetch : fetch storeClient (streamOf [fooBar 2]) (fooBar 2)
      (clusterOf [fooBar 2] [storedFooBar 1]) =
      (Except.ok (storedFooBar 1), clusterOf [fooBar 2] [storedFooBar 1]) := by rfl
  rw [hfetch] at hf
  injection hf with h1 _
  injection h1 with h1
  subst h1
  exact ⟨hmem, hrv, hrest "status" (by decide), hspec _ (by decide)⟩

/-- C5: in a pass of `Reconcile` for owner `pds` the store is read once per template, in
list order, under the key (apiVersion, kind, namespace of the owner, name), whatever
namespace the template names; every document submitted to the store create is a template
with its namespace set to the namespace of the owner; and the owner the pass holds at its
end is the one it read, templates included. -/
theorem namespace_invariant (c : Client σ) (req : NamespacedName) (s s1 : σ)
    (pds : ProjectDevelopmentStream) (h : c.GetPDS req s = (Except.ok pds, s1)) :
    (Reconcile c req s).events.filterMap Event.getKey =
      pds.Resources.map
        (fun t => (t.apiVersion, t.kind, (⟨pds.Namespace, t.name⟩ : NamespacedName))) ∧
    (∀ obj res, Event.Create obj res ∈ (Reconcile c req s).events →
      obj.Namespace = pds.Namespace ∧
      ∃ t ∈ pds.Resources, obj = { t with Namespace := pds.Namespace }) ∧
    (Reconcile c req s).pds = some pds := by
  rw [Reconcile_of_ok c req s s1 pds h]
  refine ⟨?_, ?_, rfl⟩
  · simp [List.filterMap_append, Event.getKey, pass_getKeys]
  · intro obj res hmem
    simp only [List.mem_append, List.mem_cons, List.mem_singleton, List.not_mem_nil,
      or_false, false_or, reduceCtorEq] at hmem
    obtain ⟨t, ht, he⟩ := pass_create_mem c _ pds pds.Resources s1 obj res hmem
    subst he
    exact ⟨rfl, t, ht, rfl⟩

/-- A witness of C5: a template naming the foreign namespace `team-b` is looked up and created
in the namespace `team-a` of its owner. -/
theorem namespace_invariant_witness :
    storeClient.GetPDS streamReq (clusterOf [foreignFooBar 1] []) =
      (Except.ok (streamOf [foreignFooBar 1]), clusterOf [foreignFooBar 1] []) ∧
    (Reconcile storeClient streamReq (clusterOf [foreignFooBar 1] [])).events.filterMap
      Event.getKey = [("v1", "Foo", ⟨"team-a", "bar"⟩)] ∧
    (Reconcile storeClient streamReq (clusterOf [foreignFooBar 1] [])).cluster.objects =
      [{ foreignFooBar 1 with Namespace := "team-a" }] :=
  ⟨rfl, (namespace_invariant storeClient streamReq (clusterOf [foreignFooBar 1] [])
    (clusterOf [foreignFooBar 1] []) (streamOf [foreignFooBar 1]) rfl).1, by decide⟩

/-- C7: when an iteration has fetched `existing` and the candidate built from it is
deep-equal to it, the iteration issues no store call after the read (the store is left in
the state the read returned), leaves `ctrlResult` as it found it and ends `Unchanged`;
conversely every store update an iteration issues submits a candidate that is not
deep-equal to the fetched document. -/
theorem noop_detection (c : Client σ) (log : Logger) (st : LoopState σ) (t : Unstructured)
    (existing : Unstructured) (s1 : σ)
    (hf : fetch c st.pds t st.cluster = (Except.ok existing, s1)) :
    (DeepEqual existing.Object (candidate (concrete st.pds t) existing).Object = true →
      reconcileResource c log st t =
        { st with
          cluster := s1
          events := st.events ++ preamble log st.pds t ++
            [fetched st.pds t (Except.ok existing),
              Event.Info (itemLogger log t) "Resource already up to date" []]
          outcomes := st.outcomes ++ [Outcome.Unchanged] } ∧
      (reconcileResource c log st t).events.filter Event.isUpdate =
        st.events.filter Event.isUpdate ∧
      (reconcileResource c log st t).events.filter Event.isCreate =
        st.events.filter Event.isCreate) ∧
    (∀ obj res, Event.Update obj res ∈ (itemStep c log st.pds t st.cluster).events →
      obj = candidate (concrete st.pds t) existing ∧
      DeepEqual existing.Object obj.Object = false) := by
  constructor
  · intro hd
    have hr : reconcileResource c log st t =
        { st with
          cluster := s1
          events := st.events ++ preamble log st.pds t ++
            [fetched st.pds t (Except.ok existing),
              Event.Info (itemLogger log t) "Resource already up to date" []]
          outcomes := st.outcomes ++ [Outcome.Unchanged] } := by
      rw [reconcileResource_eq, hf]
      simp only []
      rw [updateResource_eq]
      simp [hd]
    refine ⟨hr, ?_, ?_⟩
    · rw [hr]
      simp [List.filter_append, preamble_filter_isUpdate, fetched, Event.isUpdate]
    · rw [hr]
      simp [List.filter_append, preamble_filter_isCreate, fetched, Event.isCreate]
  · intro obj res hmem
    obtain ⟨ex, s2, hf2, hobj, hd, _⟩ := itemStep_update_mem c log st.pds t st.cluster obj res hmem
    rw [hf] at hf2
    injection hf2 with h1 _
    injection h1 with h1
    subst h1
    exact ⟨hobj, hd⟩

/-- A witness of C7: the template `Foo/bar` with `spec.x = 1` against a stored `Foo/bar` with
the same `spec` and a `status`: the pass ends `Unchanged` and the store is as before. -/
theorem noop_detection_witness :
    fetch storeClient (streamOf [fooBar 1]) (fooBar 1) (clusterOf [fooBar 1] [storedFooBar 1]) =
      (Except.ok (storedFooBar 1), clusterOf [fooBar 1] [storedFooBar 1]) ∧
    (reconcileResource storeClient [] (LoopState.fresh (streamOf [fooBar 1])
      (clusterOf [fooBar 1] [storedFooBar 1])) (fooBar 1)).events.filter Event.isUpdate = [] ∧
    (Reconcile storeClient streamReq (clusterOf [fooBar 1] [storedFooBar 1])).outcomes =
      [Outcome.Unchanged] ∧
    (Reconcile storeClient streamReq (clusterOf [fooBar 1] [storedFooBar 1])).cluster =
      clusterOf [fooBar 1] [storedFooBar 1] :=
  ⟨rfl, ((noop_detection storeClient [] (LoopState.fresh (streamOf [fooBar 1])
      (clusterOf [fooBar 1] [storedFooBar 1])) (fooBar 1) (storedFooBar 1)
      (clusterOf [fooBar 1] [storedFooBar 1]) rfl).1 (by decide)).2.1, by decide, by decide⟩

/-- C8: an iteration whose read of (apiVersion, kind, namespace of the owner, name) reports
not-found issues exactly one store create and no store update, and the document it submits
is the template with only its namespace set to the namespace of the owner.  With owner
`team-a`, template `Foo/bar` with `spec.x = 1` and an empty store, the pass ends `Created`
and leaves the store holding `Foo/bar` in `team-a` with `spec.x = 1`. -/
theorem create_path (c : Client σ) (log : Logger) (pds : ProjectDevelopmentStream)
    (t : Unstructured) (s s1 : σ) (err : Err)
    (hf : fetch c pds t s = (Except.error err, s1)) (hnf : IsNotFound err = true) :
    ((itemStep c log pds t s).events.filter Event.isCreate =
        [Event.Create { t with Namespace := pds.Namespace } (c.Create (concrete pds t) s1).1]) ∧
    (itemStep c log pds t s).events.filter Event.isUpdate = [] ∧
    (itemStep c log pds t s).cluster = (c.Create { t with Namespace := pds.Namespace } s1).2 ∧
    (Reconcile storeClient streamReq (clusterOf [fooBar 1] [])).outcomes = [Outcome.Created] ∧
    (Reconcile storeClient streamReq (clusterOf [fooBar 1] [])).cluster.objects =
      [{ apiVersion := "v1", kind := "Foo", name := "bar", Namespace := "team-a",
         resourceVersion := "", Object := specX 1 }] := by
  have hcon : ({ t with Namespace := pds.Namespace } : Unstructured) = concrete pds t := rfl
  rw [hcon]
  refine ⟨?_, ?_, ?_, by decide, by decide⟩
  all_goals
    rcases hc : c.Create (concrete pds t) s1 with ⟨_ | cerr, s2⟩ <;>
    simp [itemStep, reconcileResource_eq, LoopState.fresh, hf, hnf, hc, List.filter_append,
      preamble_filter_isCreate, preamble_filter_isUpdate, fetched, Event.isCreate,
      Event.isUpdate]

/-- A witness of C8: on the empty reference store the read of `Foo/bar` reports not-found. -/
theorem create_path_witness :
    fetch storeClient (streamOf [fooBar 1]) (fooBar 1) (clusterOf [fooBar 1] []) =
      (Except.error errNotFound, clusterOf [fooBar 1] []) ∧
    IsNotFound errNotFound = true ∧
    (itemStep storeClient [] (streamOf [fooBar 1]) (fooBar 1)
      (clusterOf [fooBar 1] [])).events.filter Event.isUpdate = [] :=
  ⟨rfl, rfl, (create_path storeClient [] (streamOf [fooBar 1]) (fooBar 1) (clusterOf [fooBar 1] [])
    (clusterOf [fooBar 1] []) errNotFound rfl rfl).2.1⟩

end ItemClaims

/-! ## Failure isolation and diagnostics of the write step -/

section PassClaims

variable {σ : Type}

/-- C6: in a pass over `pre ++ t :: post`, on any store, every template is read exactly
once, in list order, and yields exactly one outcome, and an item that ends in a failure has
issued no store write that succeeded.  On a store that leaves its state alone
on reads and on the writes it rejects, an item `t` that ends in a failure (`ReadFailed`,
`CreateFailed`, `UpdateFailed` or `Conflict`) leaves the store as it found it, and the items
after it have the outcomes, the trace and the final store of the pass over `pre ++ post`. -/
theorem failure_isolation (c : Client σ) (log : Logger) (pds : ProjectDevelopmentStream)
    (pre post : List Unstructured) (t : Unstructured) (s : σ) :
    ((pass c log pds (pre ++ t :: post) s).events.filterMap Event.getKey =
        (pre ++ t :: post).map
          (fun r => (r.apiVersion, r.kind, (⟨pds.Namespace, r.name⟩ : NamespacedName))) ∧
      (pass c log pds (pre ++ t :: post) s).outcomes.length = (pre ++ t :: post).length ∧
      (∀ o, (itemStep c log pds t (pass c log pds pre s).cluster).outcomes = [o] →
        o.isFailure = true →
        ∀ obj,
          Event.Create obj none ∉ (itemStep c log pds t (pass c log pds pre s).cluster).events ∧
          Event.Update obj none ∉ (itemStep c log pds t (pass c log pds pre s).cluster).events)) ∧
    ((∀ apiVersion kind key s, (c.Get apiVersion kind key s).2 = s) →
      (∀ obj s err, (c.Create obj s).1 = some err → (c.Create obj s).2 = s) →
      (∀ obj s err, (c.Update obj s).1 = some err → (c.Update obj s).2 = s) →
      ∀ o, (itemStep c log pds t (pass c log pds pre s).cluster).outcomes = [o] →
        o.isFailure = true →
        (itemStep c log pds t (pass c log pds pre s).cluster).cluster =
          (pass c log pds pre s).cluster ∧
        (pass c log pds (pre ++ t :: post) s).cluster =
          (pass c log pds (pre ++ post) s).cluster ∧
        ∃ evs outs,
          outs.length = post.length ∧
          (pass c log pds (pre ++ t :: post) s).outcomes =
            (pass c log pds pre s).outcomes ++ o :: outs ∧
          (pass c log pds (pre ++ post) s).outcomes = (pass c log pds pre s).outcomes ++ outs ∧
          (pass c log pds (pre ++ t :: post) s).events =
            (pass c log pds pre s).events ++
              ((itemStep c log pds t (pass c log pds pre s).cluster).events ++ evs) ∧
          (pass c log pds (pre ++ post) s).events = (pass c log pds pre s).events ++ evs) := by
  refine ⟨⟨pass_getKeys c log pds _ s, pass_outcomes_length c log pds _ s,
    fun o ho hfail obj => itemStep_no_write_of_failure c log pds t _ o ho hfail obj⟩, ?_⟩
  intro hget hcreate hupdate o ho hfail
  have hcl := itemStep_cluster_of_failure c hget hcreate hupdate log pds t
    (pass c log pds pre s).cluster o ho hfail
  refine ⟨hcl, ?_, ?_⟩
  · rw [pass_append c log pds pre (t :: post), pass_append c log pds pre post, pass_cons_eq, hcl]
  · refine ⟨(pass c log pds post (pass c log pds pre s).cluster).events,
      (pass c log pds post (pass c log pds pre s).cluster).outcomes,
      pass_outcomes_length c log pds post _, ?_, ?_, ?_, ?_⟩
    · rw [pass_append c log pds pre (t :: post), pass_cons_eq, hcl, ho]
      rfl
    · rw [pass_append c log pds pre post]
    · rw [pass_append c log pds pre (t :: post), pass_cons_eq, hcl]
    · rw [pass_append c log pds pre post]

/-- A witness of C6: the read of `Foo/bar` is forced to fail; `Foo/baz` after it is created as
in the pass over `Foo/baz` alone. -/
theorem failure_isolation_witness :
    (itemStep (faultyClient (failGet "bar" errUnavailable)) [] (streamOf [fooBar 1, fooBaz 1])
      (fooBar 1) (pass (faultyClient (failGet "bar" errUnavailable)) []
        (streamOf [fooBar 1, fooBaz 1]) [] (clusterOf [fooBar 1, fooBaz 1] [])).cluster).outcomes =
      [Outcome.ReadFailed] ∧
    (pass (faultyClient (failGet "bar" errUnavailable)) [] (streamOf [fooBar 1, fooBaz 1])
      ([] ++ fooBar 1 :: [fooBaz 1]) (clusterOf [fooBar 1, fooBaz 1] [])).cluster =
    (pass (faultyClient (failGet "bar" errUnavailable)) [] (streamOf [fooBar 1, fooBaz 1])
      ([] ++ [fooBaz 1]) (clusterOf [fooBar 1, fooBaz 1] [])).cluster ∧
    (pass (faultyClient (failGet "bar" errUnavailable)) [] (streamOf [fooBar 1, fooBaz 1])
      [fooBar 1, fooBaz 1] (clusterOf [fooBar 1, fooBaz 1] [])).outcomes =
      [Outcome.ReadFailed, Outcome.Created] :=
  ⟨by decide,
    ((failure_isolation (faultyClient (failGet "bar" errUnavailable)) []
      (streamOf [fooBar 1, fooBaz 1]) [] [fooBaz 1] (fooBar 1)
      (clusterOf [fooBar 1, fooBaz 1] [])).2
      (faultyClient_get _) (faultyClient_create _) (faultyClient_update _)
      Outcome.ReadFailed (by decide) (by decide)).2.1,
    by decide⟩

/-- C10, the code at a failing input: the update of `Foo/bar` is forced to fail with an error
that is no conflict.  The pass ends `UpdateFailed`, leaves the store as it was, and logs
"Failed to update resource" followed by "Resource updated". -/
theorem failed_update_logs_resource_updated :
    (Reconcile (faultyClient (failUpdate "bar" errUnavailable)) streamReq
      (clusterOf [fooBar 2] [storedFooBar 1])).events.filterMap Event.message =
      ["Applying resources from ProjectDevelopmentStream", "Creating/Updating resource",
        "Failed to update resource", "Resource updated"] ∧
    (Reconcile (faultyClient (failUpdate "bar" errUnavailable)) streamReq
      (clusterOf [fooBar 2] [storedFooBar 1])).outcomes = [Outcome.UpdateFailed] ∧
    (Reconcile (faultyClient (failUpdate "bar" errUnavailable)) streamReq
      (clusterOf [fooBar 2] [storedFooBar 1])).cluster = clusterOf [fooBar 2] [storedFooBar 1] := by
  decide

end PassClaims

/-! ## The store across a whole pass -/

section StoreClaims

/-- C9: a pass of `Reconcile` on the reference store, whatever store calls are forced to fail
(`noFaults` forces none), keeps the owners and keeps every document that was stored before
it: each is still stored, at its position and under its key, with the same version token
and the same value in every field other than `spec`; documents the pass creates come after
them. -/
theorem store_keeps_documents (f : Faults) (req : NamespacedName) (s : Cluster) :
    (Reconcile (faultyClient f) req s).cluster.streams = s.streams ∧
    s.objects.length ≤ (Reconcile (faultyClient f) req s).cluster.objects.length ∧
    List.Forall₂ SameButSpec s.objects
      ((Reconcile (faultyClient f) req s).cluster.objects.take s.objects.length) ∧
    ∀ d ∈ s.objects, ∃ d' ∈ (Reconcile (faultyClient f) req s).cluster.objects,
      d'.apiVersion = d.apiVersion ∧ d'.kind = d.kind ∧ d'.name = d.name ∧
      d'.Namespace = d.Namespace ∧ d'.resourceVersion = d.resourceVersion ∧
      ∀ k, k ≠ "spec" → d'.Object.lookup k = d.Object.lookup k := by
  obtain ⟨h1, h2⟩ := faulty_Reconcile_preserved f req s
  exact ⟨h1, (preserved_forall₂ h2).1, (preserved_forall₂ h2).2, preserved_mem h2⟩

/-- A witness of C9: the pass that updates `Foo/bar` from `spec.x = 1` to `spec.x = 2` leaves
the stored status and version token as they were. -/
theorem store_keeps_documents_witness :
    (Reconcile (faultyClient noFaults) streamReq (clusterOf [fooBar 2] [storedFooBar 1])).cluster =
      clusterOf [fooBar 2] [storedFooBar 2] ∧
    List.Forall₂ SameButSpec [storedFooBar 1]
      ((Reconcile (faultyClient noFaults) streamReq
        (clusterOf [fooBar 2] [storedFooBar 1])).cluster.objects.take 1) :=
  ⟨by decide,
    (store_keeps_documents noFaults streamReq (clusterOf [fooBar 2] [storedFooBar 1])).2.2.1⟩

/-- C3, the claim as stated fails: the owner lists `Foo/bar` twice, with `spec.x = 1` and with
`spec.x = 2`, on an empty reference store.  The first pass creates the document and updates
it; the second pass, with nothing in between, updates it twice more, so that no item of the
second pass ends `Unchanged`. -/
theorem second_pass_updates_on_repeated_key :
    (Reconcile storeClient streamReq (clusterOf [fooBar 1, fooBar 2] [])).outcomes =
      [Outcome.Created, Outcome.Updated] ∧
    (reconcileTwice storeClient streamReq (clusterOf [fooBar 1, fooBar 2] [])).outcomes =
      [Outcome.Updated, Outcome.Updated] ∧
    ¬ ∀ o ∈ (reconcileTwice storeClient streamReq (clusterOf [fooBar 1, fooBar 2] [])).outcomes,
      o = Outcome.Unchanged := by
  decide

/-- C3, amended: on a store that is keyed and stores accepted documents as submitted
(`KeyedStore`, whatever the key), started in any state with well-formed content, for an
owner in which any two templates with the same store key that both hold a mapping under
`spec` hold deep-equal ones (`Agree`), and when no item of the first pass failed, the second
of two passes in succession ends `Unchanged` for every item, issues no create and no
update, and leaves the store as the first pass left it. -/
theorem second_pass_unchanged_of_agreeing_templates {σ K : Type} (c : Client σ)
    (key : String → String → NamespacedName → K) (hs : KeyedStore c key)
    (req : NamespacedName) (s : σ) (pds : ProjectDevelopmentStream)
    (hpds : (c.GetPDS req s).1 = Except.ok pds)
    (hagree : ∀ t ∈ pds.Resources, ∀ r ∈ pds.Resources, Agree key pds t r)
    (hwt : ∀ t ∈ pds.Resources, t.Object.WF = true)
    (hws : StoreWF c s)
    (hacc : ∀ o ∈ (Reconcile c req s).outcomes, o.isFailure = false) :
    (reconcileTwice c req s).outcomes =
      List.replicate pds.Resources.length Outcome.Unchanged ∧
    (reconcileTwice c req s).events.filter Event.isCreate = [] ∧
    (reconcileTwice c req s).events.filter Event.isUpdate = [] ∧
    (reconcileTwice c req s).err = none ∧
    (reconcileTwice c req s).cluster = (Reconcile c req s).cluster := by
  have h1 : c.GetPDS req s = (Except.ok pds, s) := Prod.ext hpds (hs.getPDS_state req s)
  have hr1 := Reconcile_of_ok c req s s pds h1
  rw [hr1] at hacc
  simp only at hacc
  obtain ⟨_, hall, howner⟩ := keyed_pass c key hs (passLogger pds) pds pds.Resources hwt hagree
    pds.Resources [] s (fun _ h => h) (fun _ h => (by cases h)) hws
    (fun _ h => (by cases h)) hacc
  have hc1 : (Reconcile c req s).cluster =
      (pass c (passLogger pds) pds pds.Resources s).cluster := by
    rw [hr1]
  have h2 : c.GetPDS req (pass c (passLogger pds) pds pds.Resources s).cluster =
      (Except.ok pds, (pass c (passLogger pds) pds pds.Resources s).cluster) :=
    Prod.ext ((howner req).trans hpds) (hs.getPDS_state req _)
  obtain ⟨i1, i2, i3, i4⟩ := pass_of_settled c hs.get_state (passLogger pds) pds pds.Resources _ hall
  unfold reconcileTwice
  rw [hc1, Reconcile_of_ok c req _ _ pds h2]
  refine ⟨i2, ?_, ?_, rfl, i1⟩
  · simp [List.filter_append, i3, Event.isCreate]
  · simp [List.filter_append, i4, Event.isUpdate]

/-- A witness of C3 amended: the owner lists `Foo/bar` with `spec.x = 2` twice and `Foo/baz`
once, the reference store holds `Foo/bar` with `spec.x = 1`.  The first pass updates one
document, leaves it alone for the repeated template and creates the other; the second pass
leaves everything alone. -/
theorem second_pass_unchanged_of_agreeing_templates_witness :
    (Reconcile storeClient streamReq
      (clusterOf [fooBar 2, fooBar 2, fooBaz 1] [storedFooBar 1])).outcomes =
      [Outcome.Updated, Outcome.Unchanged, Outcome.Created] ∧
    (reconcileTwice storeClient streamReq
      (clusterOf [fooBar 2, fooBar 2, fooBaz 1] [storedFooBar 1])).outcomes =
      List.replicate 3 Outcome.Unchanged :=
  ⟨by decide,
    (second_pass_unchanged_of_agreeing_templates storeClient fullKey storeClient_keyed streamReq
      (clusterOf [fooBar 2, fooBar 2, fooBaz 1] [storedFooBar 1])
      (streamOf [fooBar 2, fooBar 2, fooBaz 1]) rfl
      (by
        intro t ht r hr
        simp only [streamOf, List.mem_cons, List.mem_singleton, List.not_mem_nil, or_false] at ht hr
        rcases ht with rfl | rfl | rfl <;> rcases hr with rfl | rfl | rfl <;>
          first
          | exact agree_of_spec_eq _ _ _ _ (by decide) rfl
          | exact agree_of_key_ne _ _ _ _ (by decide))
      (by decide)
      (listClient_storeWF _ _ (by decide))
      (by decide)).1⟩

/-- On the store keyed by (kind, namespace, name) two templates of one kind and name compete
for one document even when their apiVersions differ: the second pass updates it twice. -/
theorem kind_keyed_second_pass_updates_across_versions :
    (reconcileTwice (listClient hasKindKey) streamReq
      (clusterOf [fooBar 1, fooBarV2 2] [])).outcomes = [Outcome.Updated, Outcome.Updated] ∧
    (reconcileTwice (listClient hasKindKey) streamReq
      (clusterOf [fooBar 1, fooBarV2 1] [])).outcomes = [Outcome.Unchanged, Outcome.Unchanged] := by
  decide

/-- On a store that refuses a write of the first pass the second pass is refused again: no
item ends `Unchanged`. -/
theorem second_pass_fails_again_on_refused_write :
    (reconcileTwice (faultyClient (failCreate "bar" errUnavailable)) streamReq
      (clusterOf [fooBar 1] [])).outcomes = [Outcome.CreateFailed] ∧
    (reconcileTwice (faultyClient (failUpdate "bar" errUnavailable)) streamReq
      (clusterOf [fooBar 2] [storedFooBar 1])).outcomes = [Outcome.UpdateFailed] := by
  decide

end StoreClaims

end ProjectController
